import Mathlib

/-!
Shipping calculator: embedding of `src/shipping-calculator.js`.

The pricing core of the `ShippingCalculator` class (`calculateShipping`,
`calculateDeliveryDate`, `generateTrackingNumber`) and the weight handler of
`addValidation`, as Lean functions.

Conventions of the embedding.

* A JavaScript number is a `JSNum`: a finite binary64 value carried as the rational it
  equals, `NaN`, or a signed infinity.  Every arithmetic result is rounded to binary64
  (`binary64`: nearest, ties to even, subnormals, overflow to infinity), as is every
  numeric literal.  The sign of zero is not distinguished.
* A value that may be `undefined` is an `Option`; `none` is `undefined`.
* A thrown exception is `Except.error`; the only exception the class can raise is the
  `TypeError` of reading a property of `undefined`.
* `new Date()`, `Date.now()` and `Math.random()` are read from explicit arguments.
-/

namespace ShippingCalculator

/-! ## JavaScript numbers -/

/-- A JavaScript number: finite (exact rational), `NaN`, or `±Infinity`. -/
inductive JSNum where
  | fin (q : ℚ)
  | nan
  | inf (neg : Bool)
deriving DecidableEq

/-- Halving `n` until it is below 2, counting the steps. -/
def log2Aux : ℕ → ℕ → ℕ
  | 0, _ => 0
  | fuel + 1, n => if n < 2 then 0 else log2Aux fuel (n / 2) + 1

/-- Floor of the binary logarithm of a positive natural number. -/
def natLog2 (n : ℕ) : ℕ := log2Aux n n

/-- Floor of the binary logarithm of `|x|`, for `x ≠ 0`. -/
def ilog2 (x : ℚ) : ℤ :=
  let e : ℤ := (natLog2 x.num.natAbs : ℤ) - (natLog2 x.den : ℤ)
  if (2 : ℚ) ^ e ≤ |x| then e else e - 1

/-- The nearest integer, the even one of the two at a tie. -/
def roundHalfEven (m : ℚ) : ℤ :=
  let f := ⌊m⌋
  if m - f < 1 / 2 then f
  else if 1 / 2 < m - f then f + 1
  else if f % 2 = 0 then f
  else f + 1

/-- The exponent of the unit in the last place of the binary64 values next to `x`: 52
below the exponent of `x`, and `-1074` throughout the subnormal range. -/
def quantumExp (x : ℚ) : ℤ := max (ilog2 x) (-1022) - 52

/-- The value `x` rounded to 53 significant bits (fewer in the subnormal range), to
nearest with ties to even. -/
def roundToDouble (x : ℚ) : ℚ :=
  if x = 0 then 0
  else roundHalfEven (x / (2 : ℚ) ^ quantumExp x) * (2 : ℚ) ^ quantumExp x

/-- The binary64 number nearest to `x`: the rounded value, or an infinity once the
rounded magnitude reaches `2^1024`. -/
def binary64 (x : ℚ) : JSNum :=
  let r := roundToDouble x
  if (2 : ℚ) ^ 1024 ≤ |r| then JSNum.inf (decide (r < 0)) else JSNum.fin r

namespace JSNum

/-- The `*` operator on numbers. -/
def mul : JSNum → JSNum → JSNum
  | fin a, fin b => binary64 (a * b)
  | nan, _ => nan
  | _, nan => nan
  | inf s, inf t => inf (xor s t)
  | inf s, fin b => if b = 0 then nan else inf (xor s (decide (b < 0)))
  | fin a, inf t => if a = 0 then nan else inf (xor (decide (a < 0)) t)

/-- The `+` operator on numbers. -/
def add : JSNum → JSNum → JSNum
  | fin a, fin b => binary64 (a + b)
  | nan, _ => nan
  | _, nan => nan
  | inf s, inf t => if s = t then inf s else nan
  | inf s, fin _ => inf s
  | fin _, inf t => inf t

/-- The function `Math.max` on two numbers: `NaN` if either is `NaN`, else the larger. -/
def max : JSNum → JSNum → JSNum
  | nan, _ => nan
  | _, nan => nan
  | fin a, fin b => fin (Max.max a b)
  | inf false, _ => inf false
  | _, inf false => inf false
  | inf true, y => y
  | x, inf true => x

/-- The relational operator `<` on numbers (false whenever an operand is `NaN`). -/
def lt : JSNum → JSNum → Bool
  | fin a, fin b => decide (a < b)
  | nan, _ => false
  | _, nan => false
  | inf s, inf t => s && !t
  | inf s, fin _ => s
  | fin _, inf t => !t

/-- The relational operator `<=` on numbers (false whenever an operand is `NaN`). -/
def le : JSNum → JSNum → Bool
  | fin a, fin b => decide (a ≤ b)
  | nan, _ => false
  | _, nan => false
  | inf true, _ => true
  | _, inf false => true
  | inf false, _ => false
  | _, inf true => false

end JSNum

/-- ToNumber of a value that may be `undefined`: `undefined` converts to `NaN`. -/
def toNumber : Option JSNum → JSNum
  | some x => x
  | none => JSNum.nan

/-- The function `parseFloat` on the number a text denotes: a decimal is rounded to
binary64; a text that starts no number gives `NaN`. -/
def parseFloat : JSNum → JSNum
  | JSNum.fin q => binary64 q
  | JSNum.nan => JSNum.nan
  | JSNum.inf s => JSNum.inf s

/-! ## `Number.prototype.toFixed(2)` -/

/-- The string returned by `toFixed(2)`, kept structured.  `decimal neg n` is the sign
followed by the decimal digits of `n` with a point before the last two;
`exponent neg x` is the sign followed by `Number::toString` of `x`, the form used for
magnitudes of `10^21` and more. -/
inductive FixedString where
  | nan
  | infinity (neg : Bool)
  | decimal (neg : Bool) (n : ℕ)
  | exponent (neg : Bool) (x : ℚ)
deriving DecidableEq

/-- The integer `n` for which `n / 100 - x` is as close to zero as possible, the larger
one when there are two (`x` non-negative). -/
def nearestHundredth (x : ℚ) : ℕ := ⌊x * 100 + 1 / 2⌋₊

/-- The method `toFixed` with argument 2, following ECMA-262: a non-finite number gives
its name; otherwise the sign is split off, and the magnitude is either written in
exponent form (at least `10^21`) or rounded to the nearest hundredth. -/
def toFixed2 : JSNum → FixedString
  | JSNum.nan => FixedString.nan
  | JSNum.inf s => FixedString.infinity s
  | JSNum.fin x =>
    let neg := decide (x < 0)
    let a := if x < 0 then -x else x
    if (10 : ℚ) ^ 21 ≤ a then FixedString.exponent neg a
    else FixedString.decimal neg (nearestHundredth a)

namespace FixedString

/-- The digits of `n` left-padded with zeros to at least three characters, with a
point inserted before the last two. -/
def pointed (n : ℕ) : String :=
  let m := Nat.repr n
  let m := if m.length ≤ 2 then String.mk (List.replicate (3 - m.length) '0') ++ m else m
  String.mk (m.data.take (m.length - 2)) ++ "." ++ String.mk (m.data.drop (m.length - 2))

/-- The characters of the string, where the embedding determines them (the exponent
form is not spelled out). -/
def render : FixedString → Option String
  | nan => some "NaN"
  | infinity false => some "Infinity"
  | infinity true => some "-Infinity"
  | decimal false n => some (pointed n)
  | decimal true n => some ("-" ++ pointed n)
  | exponent _ _ => none

/-- The number a `toFixed(2)` string denotes (`none` for `NaN` and the infinities). -/
def value : FixedString → Option ℚ
  | nan => none
  | infinity _ => none
  | decimal false n => some ((n : ℚ) / 100)
  | decimal true n => some (-((n : ℚ) / 100))
  | exponent false x => some x
  | exponent true x => some (-x)

end FixedString

/-! ## Dates

A `Date` is its time value: milliseconds since the epoch, read in local time with a
fixed offset of zero.  The functions are those of ECMA-262, section "Time Values and
Time Range"; the range limit of `TimeClip` is not part of the model. -/

def msPerDay : ℤ := 86400000

def Day (t : ℤ) : ℤ := t / msPerDay

def TimeWithinDay (t : ℤ) : ℤ := t % msPerDay

def DaysInYear (y : ℤ) : ℤ :=
  if y % 4 ≠ 0 then 365
  else if y % 100 ≠ 0 then 366
  else if y % 400 ≠ 0 then 365
  else 366

/-- The day number of the first day of year `y`. -/
def DayFromYear (y : ℤ) : ℤ :=
  365 * (y - 1970) + (y - 1969) / 4 - (y - 1901) / 100 + (y - 1601) / 400

/-- The year containing day `d`: the largest `y` with `DayFromYear y ≤ d`, found from
the mean year length of `146097 / 400` days and one step of adjustment. -/
def YearFromDay (d : ℤ) : ℤ :=
  let y := 1970 + 400 * d / 146097
  if DayFromYear (y + 1) ≤ d then y + 1
  else if d < DayFromYear y then y - 1
  else y

def YearFromTime (t : ℤ) : ℤ := YearFromDay (Day t)

/-- One for a leap year, zero otherwise. -/
def leapDays (y : ℤ) : ℤ := if DaysInYear y = 366 then 1 else 0

/-- One in a leap year, zero otherwise. -/
def InLeapYear (t : ℤ) : ℤ := leapDays (YearFromTime t)

def DayWithinYear (t : ℤ) : ℤ := Day t - DayFromYear (YearFromTime t)

/-- The month, 0 for January to 11 for December, of day `d` of a year (from 0); `l` is
1 in a leap year and 0 otherwise. -/
def monthFromDayInYear (d l : ℤ) : ℤ :=
  if d < 31 then 0
  else if d < 59 + l then 1
  else if d < 90 + l then 2
  else if d < 120 + l then 3
  else if d < 151 + l then 4
  else if d < 181 + l then 5
  else if d < 212 + l then 6
  else if d < 243 + l then 7
  else if d < 273 + l then 8
  else if d < 304 + l then 9
  else if d < 334 + l then 10
  else 11

/-- The day of the month, from 1, of day `d` of a year. -/
def dateFromDayInYear (d l : ℤ) : ℤ :=
  match monthFromDayInYear d l with
  | 0 => d + 1
  | 1 => d - 30
  | 2 => d - 58 - l
  | 3 => d - 89 - l
  | 4 => d - 119 - l
  | 5 => d - 150 - l
  | 6 => d - 180 - l
  | 7 => d - 211 - l
  | 8 => d - 242 - l
  | 9 => d - 272 - l
  | 10 => d - 303 - l
  | _ => d - 333 - l

def MonthFromTime (t : ℤ) : ℤ := monthFromDayInYear (DayWithinYear t) (InLeapYear t)

def DateFromTime (t : ℤ) : ℤ := dateFromDayInYear (DayWithinYear t) (InLeapYear t)

/-- The day of the week of a time value, 0 for Sunday to 6 for Saturday. -/
def WeekDay (t : ℤ) : ℤ := (Day t + 4) % 7

/-- The number of days of a year before its month `m` (0 to 11). -/
def daysBeforeMonth (l m : ℤ) : ℤ :=
  match m with
  | 0 => 0
  | 1 => 31
  | 2 => 59 + l
  | 3 => 90 + l
  | 4 => 120 + l
  | 5 => 151 + l
  | 6 => 181 + l
  | 7 => 212 + l
  | 8 => 243 + l
  | 9 => 273 + l
  | 10 => 304 + l
  | _ => 334 + l

/-- The abstract operation `MakeDay`: the day number of the first of the month, plus
`date - 1`; a month outside 0..11 carries into the year. -/
def MakeDay (year month date : ℤ) : ℤ :=
  let ym := year + month / 12
  let mn := month % 12
  DayFromYear ym + daysBeforeMonth (leapDays ym) mn + date - 1

def MakeDate (day time : ℤ) : ℤ := day * msPerDay + time

/-- The method `Date.prototype.getDate`. -/
def getDate (t : ℤ) : ℤ := DateFromTime t

/-- The method `Date.prototype.setDate`: the new time value of a Date holding `t`. -/
def setDate (t : ℤ) (dt : ℤ) : ℤ :=
  MakeDate (MakeDay (YearFromTime t) (MonthFromTime t) dt) (TimeWithinDay t)

def weekdayName (w : ℤ) : String :=
  match w with
  | 0 => "Sunday"
  | 1 => "Monday"
  | 2 => "Tuesday"
  | 3 => "Wednesday"
  | 4 => "Thursday"
  | 5 => "Friday"
  | _ => "Saturday"

def monthName (m : ℤ) : String :=
  match m with
  | 0 => "January"
  | 1 => "February"
  | 2 => "March"
  | 3 => "April"
  | 4 => "May"
  | 5 => "June"
  | 6 => "July"
  | 7 => "August"
  | 8 => "September"
  | 9 => "October"
  | 10 => "November"
  | _ => "December"

/-- Decimal digits of an integer, with a leading minus sign when negative. -/
def intToString (n : ℤ) : String :=
  if n < 0 then "-" ++ Nat.repr n.natAbs else Nat.repr n.natAbs

/-- The call `toLocaleDateString('en-US', {weekday: 'long', year: 'numeric',
month: 'long', day: 'numeric'})`, as in "Wednesday, November 4, 2026". -/
def toLocaleDateString (t : ℤ) : String :=
  weekdayName (WeekDay t) ++ ", " ++ monthName (MonthFromTime t) ++ " " ++
    intToString (DateFromTime t) ++ ", " ++ intToString (YearFromTime t)

/-! ## The calendar in the words of the specification -/

/-- A calendar date: year, month (0 to 11) and day of the month (from 1). -/
structure CalendarDate where
  year : ℤ
  month : ℤ
  day : ℤ
deriving DecidableEq

/-- The calendar date of a time value. -/
def calendarDate (t : ℤ) : CalendarDate := ⟨YearFromTime t, MonthFromTime t, DateFromTime t⟩

/-- The length of month `m`; `l` is 1 in a leap year and 0 otherwise. -/
def daysInMonth (l m : ℤ) : ℤ :=
  match m with
  | 1 => 28 + l
  | 3 => 30
  | 5 => 30
  | 8 => 30
  | 10 => 30
  | _ => 31

/-- The calendar date advanced by one day: the next day of the month, or the first of
the next month at a month end, or the first of January of the next year at a year end. -/
def nextDay (c : CalendarDate) : CalendarDate :=
  if c.day < daysInMonth (leapDays c.year) c.month then ⟨c.year, c.month, c.day + 1⟩
  else if c.month < 11 then ⟨c.year, c.month + 1, 1⟩
  else ⟨c.year + 1, 0, 1⟩

/-! ## Strings of numbers -/

/-- The method `String.prototype.slice` with one negative argument `-k`: the last `k`
characters, or the whole string when it is shorter. -/
def sliceLast (k : ℕ) (s : String) : String := String.mk (s.data.drop (s.length - k))

/-- The method `String.prototype.substr(start, length)`. -/
def substr (start length : ℕ) (s : String) : String :=
  String.mk ((s.data.drop start).take length)

/-- The method `String.prototype.toUpperCase`, on the characters that occur here. -/
def toUpperCase (s : String) : String := String.mk (s.data.map Char.toUpper)

/-- The digit `d` of a radix-36 numeral: `0`-`9`, then `a`-`z`. -/
def radixDigit (d : ℕ) : Char :=
  if d < 10 then Char.ofNat (48 + d) else Char.ofNat (87 + d)

/-- A carry into the digits written so far (last digit first): trailing digits `z` are
dropped and the digit before them is raised by one; `none` when the carry leaves the
fraction. -/
def carryDigits : List ℕ → Option (List ℕ)
  | [] => none
  | d :: ds => if d + 1 < 36 then some ((d + 1) :: ds) else carryDigits ds

/-- The digit loop of the radix conversion: `fraction` and `delta` are binary64 numbers
and every product, difference and sum is rounded to binary64.  A digit is written,
and the loop goes on while the rest of the fraction is at least `delta`; when the
rest rounds up beyond the precision a carry ends it.  The result is the digits
written (last first) and whether a carry reached the integer part. -/
def radixDigits : ℕ → ℚ → ℚ → List ℕ → Bool × List ℕ
  | 0, _, _, acc => (false, acc)
  | fuel + 1, fraction, delta, acc =>
    let fraction := roundToDouble (fraction * 36)
    let delta := roundToDouble (delta * 36)
    let digit := ⌊fraction⌋₊
    let acc := digit :: acc
    let fraction := roundToDouble (fraction - digit)
    if (1 / 2 < fraction ∨ (fraction = 1 / 2 ∧ digit % 2 = 1)) ∧
        1 < roundToDouble (fraction + delta) then
      match carryDigits acc with
      | some acc => (false, acc)
      | none => (true, [])
    else if delta ≤ fraction then radixDigits fuel fraction delta acc
    else (false, acc)

/-- The call `x.toString(36)` for a binary64 number `0 ≤ x < 1`, as V8 computes it
(ECMA-262 leaves the digits of a radix other than 10 to the implementation): the
shortest digits that tell `x` from its neighbours, `delta` being half the distance to
the next binary64 number.  The result is `"0"` when no digit is needed, `"0."`
followed by the digits, or `"1"` when the digits round up to one. -/
def toStringRadix36 (x : ℚ) : String :=
  let delta := Max.max ((2 : ℚ) ^ (-1074 : ℤ)) (roundToDouble ((2 : ℚ) ^ quantumExp x / 2))
  if x = 0 ∨ x < delta then "0"
  else
    match radixDigits 1100 x delta [] with
    | (true, _) => "1"
    | (false, digits) => String.mk ('0' :: '.' :: digits.reverse.map radixDigit)

/-! ## The class -/

/-- The exceptions a method of the class can raise. -/
inductive JSError where
  | TypeError
deriving DecidableEq

/-- An entry of `this.rates`. -/
structure Rate where
  base : ℚ
  perKg : ℚ
  multiplier : ℚ

/-- An entry of `this.packageTypes`. -/
structure PackageInfo where
  fee : ℚ
  multiplier : ℚ

/-- The table `this.rates` of the constructor. -/
def rates : List (String × Rate) :=
  [("standard", ⟨5.99, 2.50, 1.0⟩),
   ("express", ⟨12.99, 4.00, 1.5⟩),
   ("overnight", ⟨25.99, 6.50, 2.0⟩)]

/-- The table `this.packageTypes` of the constructor. -/
def packageTypes : List (String × PackageInfo) :=
  [("document", ⟨0, 1.0⟩),
   ("package", ⟨2.50, 1.0⟩),
   ("fragile", ⟨8.00, 1.3⟩),
   ("hazardous", ⟨15.00, 1.8⟩)]

/-- The property names every object literal inherits from `Object.prototype`. -/
def objectPrototypeKeys : List String :=
  ["constructor", "hasOwnProperty", "isPrototypeOf", "propertyIsEnumerable",
   "toLocaleString", "toString", "valueOf", "__proto__", "__defineGetter__",
   "__defineSetter__", "__lookupGetter__", "__lookupSetter__"]

/-- What `table[key]` evaluates to. -/
inductive Member (α : Type) where
  /-- An own property: an entry of the table. -/
  | own (v : α)
  /-- A member inherited from `Object.prototype`: an object without the fields read. -/
  | inherited
  /-- No such property: `undefined`. -/
  | undefined

/-- The property read `table[key]` on an object literal. -/
def getProperty {α : Type} (table : List (String × α)) (key : String) : Member α :=
  match table.lookup key with
  | some v => Member.own v
  | none => if key ∈ objectPrototypeKeys then Member.inherited else Member.undefined

/-- The property read `m.field`: a `TypeError` on `undefined`, `undefined` on an object
that lacks the field, and otherwise the binary64 value of the literal in the table. -/
def Member.read {α : Type} (m : Member α) (field : α → ℚ) : Except JSError (Option JSNum) :=
  match m with
  | Member.own v => pure (some (binary64 (field v)))
  | Member.inherited => pure none
  | Member.undefined => throw JSError.TypeError

/-- The method call `v.toFixed(2)`: a `TypeError` when `v` is `undefined`. -/
def callToFixed2 (v : Option JSNum) : Except JSError FixedString :=
  match v with
  | some x => pure (toFixed2 x)
  | none => throw JSError.TypeError

/-- The `switch` of `calculateDeliveryDate`: the value of `daysToAdd`, 6 in the default
branch. -/
def deliveryDays (shippingType : String) : ℤ :=
  if shippingType = "standard" then 6
  else if shippingType = "express" then 3
  else if shippingType = "overnight" then 1
  else 6

/-- The Date object `deliveryDate` of `calculateDeliveryDate` after `setDate`. -/
def deliveryDate (today : ℤ) (shippingType : String) : ℤ :=
  let daysToAdd := deliveryDays shippingType
  let deliveryDate := today
  setDate deliveryDate (getDate today + daysToAdd)

/-- The method `calculateDeliveryDate`; `today` is the value of `new Date()`. -/
def calculateDeliveryDate (today : ℤ) (shippingType : String) : String :=
  toLocaleDateString (deliveryDate today shippingType)

/-- The method `generateTrackingNumber`; `now` is the value of `Date.now()` and `random`
the value of `Math.random()`. -/
def generateTrackingNumber (now : ℤ) (random : ℚ) : String :=
  let letters := "LC"
  let timestamp := sliceLast 8 (intToString now)
  let random := toUpperCase (substr 2 4 (toStringRadix36 random))
  letters ++ timestamp ++ random

/-- The form fields read by `calculateShipping`; `weight` is the number that the text
of the field denotes, before `parseFloat` rounds it. -/
structure FormData where
  weight : JSNum
  shippingType : String
  packageType : String
  insurance : Option String

/-- The readings of the clock and of the random source during one call. -/
structure Env where
  today : ℤ
  now : ℤ
  random : ℚ

/-- The local constants of `calculateShipping` (lines 80 to 91). -/
structure Costs where
  baseCost : Option JSNum
  weightCost : JSNum
  serviceFee : Option JSNum
  subtotal : JSNum
  insuranceCost : JSNum
  totalCost : JSNum

/-- The object returned by `calculateShipping`. -/
structure Quote where
  baseCost : FixedString
  weightCost : FixedString
  serviceFee : FixedString
  insuranceCost : FixedString
  totalCost : FixedString
  deliveryDate : String
  trackingNumber : String
  shippingType : String
  weight : JSNum

/-- Lines 70 to 91 of `calculateShipping`: the table reads and the arithmetic. -/
def computeCosts (data : FormData) : Except JSError Costs := do
  let weight := parseFloat data.weight
  let hasInsurance := decide (data.insurance = some "on")
  let rate := getProperty rates data.shippingType
  let packageInfo := getProperty packageTypes data.packageType
  let baseCost ← rate.read Rate.base
  let perKg ← rate.read Rate.perKg
  let weightCost := weight.mul (toNumber perKg)
  let serviceFee ← packageInfo.read PackageInfo.fee
  let multiplier ← packageInfo.read PackageInfo.multiplier
  let subtotal :=
    (((toNumber baseCost).add weightCost).add (toNumber serviceFee)).mul (toNumber multiplier)
  let insuranceCost :=
    if hasInsurance then JSNum.max (subtotal.mul (binary64 0.03)) (binary64 5)
    else binary64 0
  let totalCost := subtotal.add insuranceCost
  pure ⟨baseCost, weightCost, serviceFee, subtotal, insuranceCost, totalCost⟩

/-- The method `calculateShipping`. -/
def calculateShipping (env : Env) (data : FormData) : Except JSError Quote := do
  let c ← computeCosts data
  let deliveryDate := calculateDeliveryDate env.today data.shippingType
  let trackingNumber := generateTrackingNumber env.now env.random
  let baseCost ← callToFixed2 c.baseCost
  let weightCost := toFixed2 c.weightCost
  let serviceFee ← callToFixed2 c.serviceFee
  let insuranceCost := toFixed2 c.insuranceCost
  let totalCost := toFixed2 c.totalCost
  pure ⟨baseCost, weightCost, serviceFee, insuranceCost, totalCost, deliveryDate,
    trackingNumber, data.shippingType, parseFloat data.weight⟩

/-- The `input` handler that `addValidation` puts on the weight field, on the numeric
value of the field: the value the field holds afterwards. -/
def weightInput (value : JSNum) : JSNum :=
  let value := if value.lt (JSNum.fin 0) then JSNum.fin 0 else value
  if (JSNum.fin 1000).lt value then JSNum.fin 1000 else value

/-! ## The pricing formula in the words of the specification

The operators are those of the language: `+` is `JSNum.add` and `*` is `JSNum.mul`. -/

/-- Step 4 of the specification:
`subtotal = (baseCost + weightCost + handlingCost) * category.riskMultiplier`, with
`weightCost = weightKg * tier.perWeightUnitFee`. -/
def specSubtotal (t : Rate) (c : PackageInfo) (w : JSNum) : JSNum :=
  (((binary64 t.base).add (w.mul (binary64 t.perKg))).add (binary64 c.fee)).mul
    (binary64 c.multiplier)

/-- Step 5 of the specification:
`insuranceCost = insuranceRequested ? max(subtotal * 0.03, 5.00) : 0.00`. -/
def specInsurance (subtotal : JSNum) (requested : Bool) : JSNum :=
  if requested then JSNum.max (subtotal.mul (binary64 0.03)) (binary64 5) else binary64 0

/-- Step 6 of the specification: `totalCost = subtotal + insuranceCost`. -/
def specTotal (t : Rate) (c : PackageInfo) (w : JSNum) (requested : Bool) : JSNum :=
  (specSubtotal t c w).add (specInsurance (specSubtotal t c w) requested)

/-- The pricing formula in exact decimal arithmetic: subtotal, insurance and total. -/
def exactSubtotal (t : Rate) (c : PackageInfo) (w : ℚ) : ℚ :=
  (t.base + w * t.perKg + c.fee) * c.multiplier

def exactInsurance (subtotal : ℚ) (requested : Bool) : ℚ :=
  if requested then Max.max (subtotal * 0.03) 5 else 0

def exactTotal (t : Rate) (c : PackageInfo) (w : ℚ) (requested : Bool) : ℚ :=
  exactSubtotal t c w + exactInsurance (exactSubtotal t c w) requested

/-- Whether the form asks for insurance: the checkbox field holds `'on'`. -/
def insuranceRequested (insurance : Option String) : Bool := decide (insurance = some "on")

/-- The value of `toFixed2` on a non-negative finite number. -/
def fixedValue (x : ℚ) : ℚ :=
  if (10 : ℚ) ^ 21 ≤ x then x else (nearestHundredth x : ℚ) / 100

/-! ## Lemmas -/


/-! ### Rounding to binary64 -/

theorem roundHalfEven_cases (m : ℚ) :
    (roundHalfEven m = ⌊m⌋ ∧ (m - ⌊m⌋ < 1 / 2 ∨ (m - ⌊m⌋ = 1 / 2 ∧ ⌊m⌋ % 2 = 0))) ∨
    (roundHalfEven m = ⌊m⌋ + 1 ∧ (1 / 2 < m - ⌊m⌋ ∨ (m - ⌊m⌋ = 1 / 2 ∧ ⌊m⌋ % 2 = 1))) := by
  unfold roundHalfEven
  simp only
  split_ifs with h1 h2 h3
  · exact Or.inl ⟨rfl, Or.inl h1⟩
  · exact Or.inr ⟨rfl, Or.inl h2⟩
  · exact Or.inl ⟨rfl, Or.inr ⟨le_antisymm (not_lt.mp h2) (not_lt.mp h1), h3⟩⟩
  · exact Or.inr ⟨rfl, Or.inr ⟨le_antisymm (not_lt.mp h2) (not_lt.mp h1), by omega⟩⟩

theorem roundHalfEven_int (n : ℤ) : roundHalfEven (n : ℚ) = n := by
  unfold roundHalfEven
  simp

theorem roundHalfEven_mono {a b : ℚ} (h : a ≤ b) : roundHalfEven a ≤ roundHalfEven b := by
  have hf : ⌊a⌋ ≤ ⌊b⌋ := Int.floor_mono h
  have ha0 := Int.floor_le a
  have ha1 := Int.lt_floor_add_one a
  have hb0 := Int.floor_le b
  have hb1 := Int.lt_floor_add_one b
  rcases roundHalfEven_cases a with ⟨ea, ca⟩ | ⟨ea, ca⟩ <;>
    rcases roundHalfEven_cases b with ⟨eb, cb⟩ | ⟨eb, cb⟩ <;> rw [ea, eb]
  · exact hf
  · omega
  · rcases lt_or_eq_of_le hf with hlt | heq
    · omega
    · exfalso
      rw [heq] at ca
      rcases ca with ca | ⟨ca, pa⟩ <;> rcases cb with cb | ⟨cb, pb⟩
      · linarith
      · linarith
      · linarith
      · omega
  · omega

theorem roundHalfEven_error (m : ℚ) : |(roundHalfEven m : ℚ) - m| ≤ 1 / 2 := by
  have ha0 := Int.floor_le m
  have ha1 := Int.lt_floor_add_one m
  rw [abs_le]
  rcases roundHalfEven_cases m with ⟨e, c⟩ | ⟨e, c⟩ <;> rw [e]
  · rcases c with c | ⟨c, _⟩ <;> constructor <;> linarith
  · push_cast
    rcases c with c | ⟨c, _⟩ <;> constructor <;> linarith

theorem roundHalfEven_neg (m : ℚ) : roundHalfEven (-m) = -roundHalfEven m := by
  by_cases hint : (⌊m⌋ : ℚ) = m
  · rw [← hint, ← Int.cast_neg, roundHalfEven_int, roundHalfEven_int]
  · have ha0 := Int.floor_le m
    have ha1 := Int.lt_floor_add_one m
    have hlt : (⌊m⌋ : ℚ) < m := lt_of_le_of_ne ha0 hint
    have hfl : ⌊-m⌋ = -⌊m⌋ - 1 := by
      rw [Int.floor_eq_iff]
      push_cast
      constructor <;> linarith
    rcases roundHalfEven_cases m with ⟨e, c⟩ | ⟨e, c⟩ <;>
      rcases roundHalfEven_cases (-m) with ⟨e', c'⟩ | ⟨e', c'⟩ <;>
      rw [e, e', hfl] <;> rw [hfl] at c' <;> push_cast at c'
    · exfalso
      rcases c with c | ⟨c, p⟩ <;> rcases c' with c' | ⟨c', p'⟩
      · linarith
      · linarith
      · linarith
      · omega
    · ring
    · ring
    · exfalso
      rcases c with c | ⟨c, p⟩ <;> rcases c' with c' | ⟨c', p'⟩
      · linarith
      · linarith
      · linarith
      · omega

theorem log2Aux_spec : ∀ fuel n : ℕ, n ≤ fuel → n ≠ 0 →
    2 ^ log2Aux fuel n ≤ n ∧ n < 2 ^ (log2Aux fuel n + 1) := by
  intro fuel
  induction fuel with
  | zero => intro n h0 h1; omega
  | succ fuel ih =>
    intro n hn h0
    unfold log2Aux
    split_ifs with h2
    · simp; omega
    · obtain ⟨a, b⟩ := ih (n / 2) (by omega) (by omega)
      rw [pow_succ] at b ⊢
      rw [pow_succ]
      constructor <;> omega

theorem natLog2_spec {n : ℕ} (h : n ≠ 0) : 2 ^ natLog2 n ≤ n ∧ n < 2 ^ (natLog2 n + 1) :=
  log2Aux_spec n n le_rfl h

theorem two_zpow_pos (e : ℤ) : (0 : ℚ) < (2 : ℚ) ^ e := zpow_pos (by norm_num) e

theorem two_zpow_le {m n : ℤ} (h : m ≤ n) : (2 : ℚ) ^ m ≤ (2 : ℚ) ^ n :=
  zpow_le_zpow_right₀ (by norm_num) h

theorem two_zpow_succ (e : ℤ) : (2 : ℚ) ^ (e + 1) = 2 * (2 : ℚ) ^ e := by
  rw [zpow_add₀ (by norm_num : (2 : ℚ) ≠ 0), zpow_one, mul_comm]

theorem ilog2_spec {x : ℚ} (hx : x ≠ 0) :
    (2 : ℚ) ^ ilog2 x ≤ |x| ∧ |x| < (2 : ℚ) ^ (ilog2 x + 1) := by
  have hn : x.num.natAbs ≠ 0 := by
    simpa using Rat.num_ne_zero.mpr hx
  have hd : x.den ≠ 0 := x.den_nz
  have dpos : (0 : ℚ) < (x.den : ℚ) := by exact_mod_cast Nat.pos_of_ne_zero hd
  have habs : |x| = (x.num.natAbs : ℚ) / (x.den : ℚ) := by
    conv_lhs => rw [← Rat.num_div_den x]
    rw [abs_div, abs_of_pos dpos, Nat.cast_natAbs, Int.cast_abs]
  have n0 : ((2 : ℚ) ^ (natLog2 x.num.natAbs : ℤ)) ≤ (x.num.natAbs : ℚ) := by
    rw [zpow_natCast]
    exact_mod_cast (natLog2_spec hn).1
  have n1 : (x.num.natAbs : ℚ) < (2 : ℚ) ^ ((natLog2 x.num.natAbs : ℤ) + 1) := by
    have := (natLog2_spec hn).2
    have h2 : ((natLog2 x.num.natAbs : ℤ) + 1) = ((natLog2 x.num.natAbs + 1 : ℕ) : ℤ) := by
      push_cast; ring
    rw [h2, zpow_natCast]
    exact_mod_cast this
  have d0 : ((2 : ℚ) ^ (natLog2 x.den : ℤ)) ≤ (x.den : ℚ) := by
    rw [zpow_natCast]
    exact_mod_cast (natLog2_spec hd).1
  have d1 : (x.den : ℚ) < (2 : ℚ) ^ ((natLog2 x.den : ℤ) + 1) := by
    have := (natLog2_spec hd).2
    have h2 : ((natLog2 x.den : ℤ) + 1) = ((natLog2 x.den + 1 : ℕ) : ℤ) := by
      push_cast; ring
    rw [h2, zpow_natCast]
    exact_mod_cast this
  set a : ℤ := (natLog2 x.num.natAbs : ℤ) with ha
  set b : ℤ := (natLog2 x.den : ℤ) with hb
  have hlow : (2 : ℚ) ^ (a - b - 1) ≤ |x| := by
    rw [habs, le_div_iff₀ dpos]
    have e1 : (2 : ℚ) ^ (a - b - 1) * (2 : ℚ) ^ (b + 1) = (2 : ℚ) ^ a := by
      rw [← zpow_add₀ (by norm_num : (2 : ℚ) ≠ 0)]
      congr 1
      ring
    calc (2 : ℚ) ^ (a - b - 1) * (x.den : ℚ)
        ≤ (2 : ℚ) ^ (a - b - 1) * (2 : ℚ) ^ (b + 1) :=
          mul_le_mul_of_nonneg_left d1.le (two_zpow_pos _).le
      _ = (2 : ℚ) ^ a := e1
      _ ≤ _ := n0
  have hhigh : |x| < (2 : ℚ) ^ (a - b + 1) := by
    rw [habs, div_lt_iff₀ dpos]
    have e1 : (2 : ℚ) ^ (a - b + 1) * (2 : ℚ) ^ b = (2 : ℚ) ^ (a + 1) := by
      rw [← zpow_add₀ (by norm_num : (2 : ℚ) ≠ 0)]
      congr 1
      ring
    calc (x.num.natAbs : ℚ) < (2 : ℚ) ^ (a + 1) := n1
      _ = (2 : ℚ) ^ (a - b + 1) * (2 : ℚ) ^ b := e1.symm
      _ ≤ (2 : ℚ) ^ (a - b + 1) * (x.den : ℚ) :=
          mul_le_mul_of_nonneg_left d0 (two_zpow_pos _).le
  unfold ilog2
  simp only
  rw [← ha, ← hb]
  split_ifs with h
  · exact ⟨h, hhigh⟩
  · refine ⟨hlow, ?_⟩
    have : a - b - 1 + 1 = a - b := by ring
    rw [this]
    exact not_le.mp h

theorem ilog2_unique {x : ℚ} {e : ℤ} (h0 : (2 : ℚ) ^ e ≤ |x|) (h1 : |x| < (2 : ℚ) ^ (e + 1)) :
    ilog2 x = e := by
  have hx : x ≠ 0 := by
    intro h
    rw [h, abs_zero] at h0
    exact absurd h0 (not_le.mpr (two_zpow_pos e))
  obtain ⟨s0, s1⟩ := ilog2_spec hx
  have a1 : (2 : ℚ) ^ e < (2 : ℚ) ^ (ilog2 x + 1) := lt_of_le_of_lt h0 s1
  have a2 : (2 : ℚ) ^ ilog2 x < (2 : ℚ) ^ (e + 1) := lt_of_le_of_lt s0 h1
  rw [zpow_lt_zpow_iff_right₀ (by norm_num : (1 : ℚ) < 2)] at a1 a2
  omega

theorem ilog2_mono {x y : ℚ} (hx : x ≠ 0) (h : |x| ≤ |y|) : ilog2 x ≤ ilog2 y := by
  have hy : y ≠ 0 := by
    intro hy
    rw [hy, abs_zero] at h
    exact hx (abs_eq_zero.mp (le_antisymm h (abs_nonneg x)))
  obtain ⟨s0, _⟩ := ilog2_spec hx
  obtain ⟨_, t1⟩ := ilog2_spec hy
  have a1 : (2 : ℚ) ^ ilog2 x < (2 : ℚ) ^ (ilog2 y + 1) := lt_of_le_of_lt (le_trans s0 h) t1
  rw [zpow_lt_zpow_iff_right₀ (by norm_num : (1 : ℚ) < 2)] at a1
  omega

theorem ilog2_neg (x : ℚ) : ilog2 (-x) = ilog2 x := by
  unfold ilog2
  simp

theorem quantumExp_neg (x : ℚ) : quantumExp (-x) = quantumExp x := by
  unfold quantumExp
  rw [ilog2_neg]

theorem quantumExp_ge (x : ℚ) : -1074 ≤ quantumExp x := by
  unfold quantumExp
  have := le_max_right (ilog2 x) (-1022)
  omega

theorem quantumExp_mono {x y : ℚ} (hx : x ≠ 0) (h : |x| ≤ |y|) :
    quantumExp x ≤ quantumExp y := by
  unfold quantumExp
  have := ilog2_mono hx h
  have := max_le_max this (le_refl (-1022 : ℤ))
  omega

/-- The scaled magnitude of a number is below `2^53`. -/
theorem scaled_lt {x : ℚ} (hx : x ≠ 0) : |x| / (2 : ℚ) ^ quantumExp x < 2 ^ 53 := by
  obtain ⟨_, s1⟩ := ilog2_spec hx
  rw [div_lt_iff₀ (two_zpow_pos _)]
  have h1 : ilog2 x + 1 ≤ quantumExp x + 53 := by
    unfold quantumExp
    have := le_max_left (ilog2 x) (-1022)
    omega
  have h2 : (2 : ℚ) ^ (quantumExp x + 53) = 2 ^ 53 * (2 : ℚ) ^ quantumExp x := by
    rw [zpow_add₀ (by norm_num : (2 : ℚ) ≠ 0), mul_comm]
    norm_num
  calc |x| < (2 : ℚ) ^ (ilog2 x + 1) := s1
    _ ≤ (2 : ℚ) ^ (quantumExp x + 53) := two_zpow_le h1
    _ = _ := h2

/-- Above the subnormal range the scaled magnitude is at least `2^52`. -/
theorem scaled_ge {x : ℚ} (hx : x ≠ 0) (hq : -1074 < quantumExp x) :
    2 ^ 52 ≤ |x| / (2 : ℚ) ^ quantumExp x := by
  obtain ⟨s0, _⟩ := ilog2_spec hx
  rw [le_div_iff₀ (two_zpow_pos _)]
  have h1 : quantumExp x + 52 = ilog2 x := by
    unfold quantumExp at hq ⊢
    rcases max_cases (ilog2 x) (-1022) with ⟨h, _⟩ | ⟨h, _⟩ <;> rw [h] at hq ⊢ <;> omega
  have h2 : (2 : ℚ) ^ (quantumExp x + 52) = 2 ^ 52 * (2 : ℚ) ^ quantumExp x := by
    rw [zpow_add₀ (by norm_num : (2 : ℚ) ≠ 0), mul_comm]
    norm_num
  rw [← h2, h1]
  exact s0

theorem roundToDouble_zero : roundToDouble 0 = 0 := by
  simp [roundToDouble]

theorem roundToDouble_neg (x : ℚ) : roundToDouble (-x) = -roundToDouble x := by
  unfold roundToDouble
  by_cases hx : x = 0
  · simp [hx]
  · have hx' : -x ≠ 0 := neg_ne_zero.mpr hx
    rw [if_neg hx, if_neg hx', quantumExp_neg, neg_div, roundHalfEven_neg]
    push_cast
    ring

theorem roundToDouble_nonneg {x : ℚ} (hx : 0 ≤ x) : 0 ≤ roundToDouble x := by
  unfold roundToDouble
  split_ifs with h
  · exact le_refl 0
  · have hm : (0 : ℚ) ≤ x / (2 : ℚ) ^ quantumExp x := div_nonneg hx (two_zpow_pos _).le
    have hk : (0 : ℤ) ≤ roundHalfEven (x / (2 : ℚ) ^ quantumExp x) := by
      have := roundHalfEven_mono hm
      rwa [show ((0 : ℚ)) = ((0 : ℤ) : ℚ) by norm_num, roundHalfEven_int] at this
    exact mul_nonneg (by exact_mod_cast hk) (two_zpow_pos _).le

theorem roundToDouble_mono_pos {x y : ℚ} (hx : 0 < x) (h : x ≤ y) :
    roundToDouble x ≤ roundToDouble y := by
  have hy : 0 < y := lt_of_lt_of_le hx h
  have hx0 : x ≠ 0 := hx.ne'
  have hy0 : y ≠ 0 := hy.ne'
  have hq : quantumExp x ≤ quantumExp y :=
    quantumExp_mono hx0 (by rw [abs_of_pos hx, abs_of_pos hy]; exact h)
  unfold roundToDouble
  rw [if_neg hx0, if_neg hy0]
  rcases lt_or_eq_of_le hq with hlt | heq
  · have sx := scaled_lt hx0
    rw [abs_of_pos hx] at sx
    have sy := scaled_ge hy0 (lt_of_le_of_lt (quantumExp_ge x) hlt)
    rw [abs_of_pos hy] at sy
    have kx : roundHalfEven (x / (2 : ℚ) ^ quantumExp x) ≤ 2 ^ 53 := by
      have := roundHalfEven_mono sx.le
      rwa [show ((2 : ℚ) ^ 53) = (((2 : ℤ) ^ 53 : ℤ) : ℚ) by norm_num, roundHalfEven_int] at this
    have ky : (2 : ℤ) ^ 52 ≤ roundHalfEven (y / (2 : ℚ) ^ quantumExp y) := by
      have := roundHalfEven_mono sy
      rwa [show ((2 : ℚ) ^ 52) = (((2 : ℤ) ^ 52 : ℤ) : ℚ) by norm_num, roundHalfEven_int] at this
    have kx' : (roundHalfEven (x / (2 : ℚ) ^ quantumExp x) : ℚ) ≤ 2 ^ 53 := by exact_mod_cast kx
    have ky' : (2 : ℚ) ^ 52 ≤ (roundHalfEven (y / (2 : ℚ) ^ quantumExp y) : ℚ) := by
      exact_mod_cast ky
    have hstep : (2 : ℚ) ^ 53 * (2 : ℚ) ^ quantumExp x ≤ 2 ^ 52 * (2 : ℚ) ^ quantumExp y := by
      have h1 : (2 : ℚ) ^ 53 * (2 : ℚ) ^ quantumExp x = (2 : ℚ) ^ (quantumExp x + 53) := by
        rw [zpow_add₀ (by norm_num : (2 : ℚ) ≠ 0), mul_comm]
        norm_num
      have h2 : (2 : ℚ) ^ 52 * (2 : ℚ) ^ quantumExp y = (2 : ℚ) ^ (quantumExp y + 52) := by
        rw [zpow_add₀ (by norm_num : (2 : ℚ) ≠ 0), mul_comm]
        norm_num
      rw [h1, h2]
      exact two_zpow_le (by omega)
    calc (roundHalfEven (x / (2 : ℚ) ^ quantumExp x) : ℚ) * (2 : ℚ) ^ quantumExp x
        ≤ 2 ^ 53 * (2 : ℚ) ^ quantumExp x :=
          mul_le_mul_of_nonneg_right kx' (two_zpow_pos _).le
      _ ≤ 2 ^ 52 * (2 : ℚ) ^ quantumExp y := hstep
      _ ≤ _ := mul_le_mul_of_nonneg_right ky' (two_zpow_pos _).le
  · rw [heq]
    have hm : x / (2 : ℚ) ^ quantumExp y ≤ y / (2 : ℚ) ^ quantumExp y :=
      div_le_div_of_nonneg_right h (two_zpow_pos _).le
    have := roundHalfEven_mono hm
    exact mul_le_mul_of_nonneg_right (by exact_mod_cast this) (two_zpow_pos _).le

theorem roundToDouble_mono {x y : ℚ} (h : x ≤ y) : roundToDouble x ≤ roundToDouble y := by
  rcases lt_trichotomy 0 x with hx | hx | hx
  · exact roundToDouble_mono_pos hx h
  · rw [← hx, roundToDouble_zero]
    exact roundToDouble_nonneg (hx ▸ h)
  · rcases le_or_lt 0 y with hy | hy
    · have h1 : roundToDouble x ≤ 0 := by
        have := roundToDouble_nonneg (show 0 ≤ -x by linarith)
        rw [roundToDouble_neg] at this
        linarith
      exact le_trans h1 (roundToDouble_nonneg hy)
    · have := roundToDouble_mono_pos (show 0 < -y by linarith) (show -y ≤ -x by linarith)
      rw [roundToDouble_neg, roundToDouble_neg] at this
      linarith

/-- A number that is a whole multiple of its own quantum is its own rounding. -/
theorem roundToDouble_of_multiple {r : ℚ} (n : ℤ) (h : r = n * (2 : ℚ) ^ quantumExp r) :
    roundToDouble r = r := by
  unfold roundToDouble
  split_ifs with h0
  · exact h0.symm
  · have : r / (2 : ℚ) ^ quantumExp r = (n : ℚ) := by
      rw [div_eq_iff (two_zpow_pos _).ne']
      exact h
    rw [this, roundHalfEven_int]
    exact h.symm

theorem roundToDouble_idem_pos {z : ℚ} (hz : 0 < z) :
    roundToDouble (roundToDouble z) = roundToDouble z := by
  have hz0 : z ≠ 0 := hz.ne'
  have hr : roundToDouble z =
      (roundHalfEven (z / (2 : ℚ) ^ quantumExp z) : ℚ) * (2 : ℚ) ^ quantumExp z := by
    unfold roundToDouble
    rw [if_neg hz0]
  set q := quantumExp z with hq
  set k := roundHalfEven (z / (2 : ℚ) ^ q) with hk
  have hqge : -1074 ≤ q := quantumExp_ge z
  have sx := scaled_lt hz0
  rw [abs_of_pos hz, ← hq] at sx
  have kle : k ≤ 2 ^ 53 := by
    have := roundHalfEven_mono sx.le
    rwa [show ((2 : ℚ) ^ 53) = (((2 : ℤ) ^ 53 : ℤ) : ℚ) by norm_num, roundHalfEven_int] at this
  have kge : 0 ≤ k := by
    have hm : (0 : ℚ) ≤ z / (2 : ℚ) ^ q := div_nonneg hz.le (two_zpow_pos _).le
    have := roundHalfEven_mono hm
    rwa [show ((0 : ℚ)) = ((0 : ℤ) : ℚ) by norm_num, roundHalfEven_int] at this
  rcases eq_or_lt_of_le kge with k0 | kpos
  · rw [hr, ← k0]
    simp [roundToDouble_zero]
  have rpos : 0 < roundToDouble z := by
    rw [hr]
    exact mul_pos (by exact_mod_cast kpos) (two_zpow_pos _)
  rcases eq_or_lt_of_le kle with k53 | klt
  · -- the rounding reached the next power of two
    have hval : roundToDouble z = (2 : ℚ) ^ (q + 53) := by
      rw [hr, k53, zpow_add₀ (by norm_num : (2 : ℚ) ≠ 0), mul_comm]
      norm_num
    have hl : ilog2 (roundToDouble z) = q + 53 := by
      apply ilog2_unique
      · rw [abs_of_pos rpos, hval]
      · rw [abs_of_pos rpos, hval]
        exact zpow_lt_zpow_right₀ (by norm_num) (by omega)
    have hq' : quantumExp (roundToDouble z) = q + 1 := by
      unfold quantumExp
      rw [hl, max_eq_left (by omega)]
      omega
    apply roundToDouble_of_multiple ((2 : ℤ) ^ 52)
    rw [hq', hval, zpow_add₀ (by norm_num : (2 : ℚ) ≠ 0) q 53,
      zpow_add₀ (by norm_num : (2 : ℚ) ≠ 0) q 1]
    norm_num
    ring
  · have rlt : roundToDouble z < (2 : ℚ) ^ (q + 53) := by
      rw [hr, zpow_add₀ (by norm_num : (2 : ℚ) ≠ 0), mul_comm ((2 : ℚ) ^ q)]
      have : (k : ℚ) < 2 ^ 53 := by exact_mod_cast klt
      have h53 : ((2 : ℚ) ^ (53 : ℤ)) = 2 ^ 53 := by norm_num
      rw [h53]
      exact mul_lt_mul_of_pos_right this (two_zpow_pos _)
    obtain ⟨s0, _⟩ := ilog2_spec rpos.ne'
    rw [abs_of_pos rpos] at s0
    have hl : ilog2 (roundToDouble z) < q + 53 := by
      have := lt_of_le_of_lt s0 rlt
      rwa [zpow_lt_zpow_iff_right₀ (by norm_num : (1 : ℚ) < 2)] at this
    have hq' : quantumExp (roundToDouble z) ≤ q := by
      unfold quantumExp
      rcases max_cases (ilog2 (roundToDouble z)) (-1022) with ⟨h, _⟩ | ⟨h, _⟩ <;> rw [h] <;> omega
    obtain ⟨d, hd⟩ := Int.eq_ofNat_of_zero_le (show 0 ≤ q - quantumExp (roundToDouble z) by omega)
    apply roundToDouble_of_multiple (k * (2 : ℤ) ^ d)
    have hsplit : (2 : ℚ) ^ q = (2 : ℚ) ^ d * (2 : ℚ) ^ quantumExp (roundToDouble z) := by
      rw [← zpow_natCast, ← zpow_add₀ (by norm_num : (2 : ℚ) ≠ 0)]
      congr 1
      omega
    calc roundToDouble z = (k : ℚ) * (2 : ℚ) ^ q := hr
      _ = (k : ℚ) * ((2 : ℚ) ^ d * (2 : ℚ) ^ quantumExp (roundToDouble z)) := by rw [hsplit]
      _ = ((k * (2 : ℤ) ^ d : ℤ) : ℚ) * (2 : ℚ) ^ quantumExp (roundToDouble z) := by
        push_cast
        ring

theorem roundToDouble_idem (z : ℚ) : roundToDouble (roundToDouble z) = roundToDouble z := by
  rcases lt_trichotomy 0 z with hz | hz | hz
  · exact roundToDouble_idem_pos hz
  · rw [← hz, roundToDouble_zero, roundToDouble_zero]
  · have := roundToDouble_idem_pos (show 0 < -z by linarith)
    rw [roundToDouble_neg, roundToDouble_neg] at this
    linarith

theorem roundToDouble_two_pow (k : ℕ) : roundToDouble ((2 : ℚ) ^ k) = (2 : ℚ) ^ k := by
  have hpos : (0 : ℚ) < (2 : ℚ) ^ k := by positivity
  have hz : ((2 : ℚ) ^ k) = (2 : ℚ) ^ (k : ℤ) := (zpow_natCast 2 k).symm
  have hl : ilog2 ((2 : ℚ) ^ k) = k := by
    apply ilog2_unique
    · rw [abs_of_pos hpos, hz]
    · rw [abs_of_pos hpos, hz]
      exact zpow_lt_zpow_right₀ (by norm_num) (by omega)
  have hq : quantumExp ((2 : ℚ) ^ k) = (k : ℤ) - 52 := by
    unfold quantumExp
    rw [hl, max_eq_left (by omega)]
  apply roundToDouble_of_multiple ((2 : ℤ) ^ 52)
  rw [hq, zpow_sub₀ (by norm_num : (2 : ℚ) ≠ 0), zpow_natCast]
  norm_num
  ring

theorem roundToDouble_le_two_pow {x : ℚ} {k : ℕ} (h : x ≤ (2 : ℚ) ^ k) :
    roundToDouble x ≤ (2 : ℚ) ^ k := by
  have := roundToDouble_mono h
  rwa [roundToDouble_two_pow] at this

theorem roundToDouble_ge_of_idem {x y : ℚ} (hy : roundToDouble y = y) (h : y ≤ x) :
    y ≤ roundToDouble x := by
  have := roundToDouble_mono h
  rwa [hy] at this

theorem binary64_cases (x : ℚ) :
    (binary64 x = JSNum.fin (roundToDouble x) ∧ |roundToDouble x| < (2 : ℚ) ^ 1024) ∨
      (binary64 x = JSNum.inf (decide (roundToDouble x < 0)) ∧
        (2 : ℚ) ^ 1024 ≤ |roundToDouble x|) := by
  unfold binary64
  simp only
  split_ifs with h
  · exact Or.inr ⟨rfl, h⟩
  · exact Or.inl ⟨rfl, not_le.mp h⟩

/-- A non-negative value of at most `2^k`, `k ≤ 1023`, rounds to a finite number of
the same range. -/
theorem binary64_of_bounds {x : ℚ} {k : ℕ} (hk : k ≤ 1023) (h0 : 0 ≤ x)
    (h1 : x ≤ (2 : ℚ) ^ k) :
    binary64 x = JSNum.fin (roundToDouble x) ∧ 0 ≤ roundToDouble x ∧
      roundToDouble x ≤ (2 : ℚ) ^ k := by
  have r0 := roundToDouble_nonneg h0
  have r1 := roundToDouble_le_two_pow h1
  refine ⟨?_, r0, r1⟩
  rcases binary64_cases x with ⟨h, _⟩ | ⟨_, h⟩
  · exact h
  · exfalso
    rw [abs_of_nonneg r0] at h
    have hlt : (2 : ℚ) ^ k < (2 : ℚ) ^ 1024 :=
      pow_lt_pow_right₀ (by norm_num) (by omega)
    linarith

theorem binary64_mono {x y : ℚ} (h : x ≤ y) : (binary64 x).le (binary64 y) = true := by
  have hr := roundToDouble_mono h
  rcases binary64_cases x with ⟨ex, bx⟩ | ⟨ex, bx⟩ <;>
    rcases binary64_cases y with ⟨ey, by_⟩ | ⟨ey, by_⟩ <;> rw [ex, ey]
  · simpa [JSNum.le] using hr
  · have hpos : ¬ roundToDouble y < 0 := by
      intro hneg
      rw [abs_of_neg hneg] at by_
      rw [abs_lt] at bx
      linarith
    simp [JSNum.le, hpos]
  · have hneg : roundToDouble x < 0 := by
      by_contra hc
      rw [abs_of_nonneg (not_lt.mp hc)] at bx
      rw [abs_lt] at by_
      linarith
    simp [JSNum.le, hneg]
  · by_cases hx : roundToDouble x < 0
    · simp [JSNum.le, hx]
    · have hy : ¬ roundToDouble y < 0 := by
        intro hy
        exact hx (lt_of_le_of_lt hr hy)
      simp [JSNum.le, hx, hy]

theorem binary64_nonneg {x : ℚ} (h : 0 ≤ x) : (JSNum.fin 0).le (binary64 x) = true := by
  have r0 := roundToDouble_nonneg h
  rcases binary64_cases x with ⟨e, _⟩ | ⟨e, _⟩ <;> rw [e]
  · simpa [JSNum.le] using r0
  · simp [JSNum.le, not_lt.mpr r0]

/-! ### The method `toFixed(2)` -/

theorem nearestHundredth_bounds {a : ℚ} (ha : 0 ≤ a) :
    (nearestHundredth a : ℚ) ≤ a * 100 + 1 / 2 ∧ a * 100 + 1 / 2 < nearestHundredth a + 1 := by
  have h0 : (0 : ℚ) ≤ a * 100 + 1 / 2 := by positivity
  exact ⟨Nat.floor_le h0, Nat.lt_floor_add_one _⟩

theorem nearestHundredth_mono {a b : ℚ} (h : a ≤ b) :
    nearestHundredth a ≤ nearestHundredth b := by
  unfold nearestHundredth
  apply Nat.floor_mono
  linarith

/-- The value of `toFixed2` on a finite number: within half a hundredth of it, and a
whole number of hundredths below `10^21`. -/
theorem toFixed2_value (x : ℚ) :
    ∃ v : ℚ, (toFixed2 (JSNum.fin x)).value = some v ∧ |v - x| ≤ 1 / 200 ∧
      (|x| < 10 ^ 21 → ∃ n : ℤ, v = n / 100) := by
  by_cases hx : x < 0
  · by_cases hbig : (10 : ℚ) ^ 21 ≤ -x
    · refine ⟨x, ?_, by simp, ?_⟩
      · simp [toFixed2, hx, hbig, FixedString.value]
      · intro h
        rw [abs_of_neg hx] at h
        exact absurd hbig (not_le.mpr h)
    · have hb := nearestHundredth_bounds (a := -x) (by linarith)
      refine ⟨-((nearestHundredth (-x) : ℚ) / 100), ?_, ?_, ?_⟩
      · simp [toFixed2, hx, hbig, FixedString.value]
      · rw [abs_le]
        constructor <;> linarith [hb.1, hb.2]
      · intro _
        exact ⟨-(nearestHundredth (-x) : ℤ), by push_cast; ring⟩
  · have hx0 : 0 ≤ x := not_lt.mp hx
    by_cases hbig : (10 : ℚ) ^ 21 ≤ x
    · refine ⟨x, ?_, by simp, ?_⟩
      · simp [toFixed2, hx, hbig, FixedString.value]
      · intro h
        rw [abs_of_nonneg hx0] at h
        exact absurd hbig (not_le.mpr h)
    · have hb := nearestHundredth_bounds hx0
      refine ⟨(nearestHundredth x : ℚ) / 100, ?_, ?_, ?_⟩
      · simp [toFixed2, hx, hbig, FixedString.value]
      · rw [abs_le]
        constructor <;> linarith [hb.1, hb.2]
      · intro _
        exact ⟨(nearestHundredth x : ℤ), by push_cast; ring⟩

theorem toFixed2_value_nonneg {x : ℚ} (hx : 0 ≤ x) :
    (toFixed2 (JSNum.fin x)).value = some (fixedValue x) := by
  have hx' : ¬ x < 0 := not_lt.mpr hx
  by_cases hbig : (10 : ℚ) ^ 21 ≤ x <;>
    simp [toFixed2, hx', hbig, FixedString.value, fixedValue]

theorem fixedValue_mono {x y : ℚ} (hx : 0 ≤ x) (h : x ≤ y) : fixedValue x ≤ fixedValue y := by
  unfold fixedValue
  by_cases hbx : (10 : ℚ) ^ 21 ≤ x
  · have hby : (10 : ℚ) ^ 21 ≤ y := le_trans hbx h
    simp [hbx, hby, h]
  · by_cases hby : (10 : ℚ) ^ 21 ≤ y
    · simp only [hbx, hby, if_false, if_true]
      have hb := nearestHundredth_bounds hx
      have hlt : (nearestHundredth x : ℚ) < ((10 ^ 23 + 1 : ℕ) : ℚ) := by
        push_cast
        have : x < 10 ^ 21 := not_le.mp hbx
        linarith [hb.1]
      have hle : nearestHundredth x ≤ 10 ^ 23 := by
        have := Nat.cast_lt.mp hlt
        omega
      have hle' : (nearestHundredth x : ℚ) ≤ 10 ^ 23 := by exact_mod_cast hle
      linarith
    · simp only [hbx, hby, if_false]
      have := nearestHundredth_mono h
      have h' : (nearestHundredth x : ℚ) ≤ nearestHundredth y := by exact_mod_cast this
      linarith

theorem fixedValue_nonneg (x : ℚ) (hx : 0 ≤ x) : 0 ≤ fixedValue x := by
  unfold fixedValue
  split_ifs
  · exact hx
  · positivity


/-! ### Table reads -/

theorem getProperty_rates {key : String} {t : Rate} (h : (key, t) ∈ rates) :
    getProperty rates key = Member.own t := by
  simp only [rates, List.mem_cons, Prod.mk.injEq, List.mem_singleton, List.not_mem_nil,
    or_false] at h
  rcases h with ⟨rfl, rfl⟩ | ⟨rfl, rfl⟩ | ⟨rfl, rfl⟩ <;> rfl

theorem getProperty_packageTypes {key : String} {p : PackageInfo}
    (h : (key, p) ∈ packageTypes) : getProperty packageTypes key = Member.own p := by
  simp only [packageTypes, List.mem_cons, Prod.mk.injEq, List.mem_singleton,
    List.not_mem_nil, or_false] at h
  rcases h with ⟨rfl, rfl⟩ | ⟨rfl, rfl⟩ | ⟨rfl, rfl⟩ | ⟨rfl, rfl⟩ <;> rfl

theorem lookup_eq_none {α : Type} (table : List (String × α)) (key : String)
    (h : key ∉ table.map Prod.fst) : table.lookup key = none := by
  induction table with
  | nil => rfl
  | cons e es ih =>
    obtain ⟨k, v⟩ := e
    simp only [List.map_cons, List.mem_cons, not_or] at h
    have hk : (key == k) = false := by
      simpa using h.1
    simp only [List.lookup, hk]
    exact ih h.2

/-- A key outside a table reads as an inherited member or as `undefined`, never as an
entry. -/
theorem getProperty_not_own {α : Type} (table : List (String × α)) (key : String)
    (h : key ∉ table.map Prod.fst) :
    getProperty table key = Member.inherited ∨ getProperty table key = Member.undefined := by
  unfold getProperty
  rw [lookup_eq_none table key h]
  by_cases hk : key ∈ objectPrototypeKeys
  · left; simp [hk]
  · right; simp [hk]

/-- The call fails as soon as one of the two table reads does not give an entry. -/
theorem calculateShipping_error (env : Env) (data : FormData)
    (h : (getProperty rates data.shippingType = Member.inherited ∨
          getProperty rates data.shippingType = Member.undefined) ∨
        (getProperty packageTypes data.packageType = Member.inherited ∨
          getProperty packageTypes data.packageType = Member.undefined)) :
    calculateShipping env data = Except.error JSError.TypeError := by
  unfold calculateShipping computeCosts
  cases hr : getProperty rates data.shippingType <;>
    cases hq : getProperty packageTypes data.packageType <;>
    simp_all [Member.read, callToFixed2, bind, Except.bind, pure, Except.pure, throw,
      throwThe, MonadExceptOf.throw]


/-! ### The arithmetic of `calculateShipping` -/

theorem computeCosts_own {key key' : String} {t : Rate} {p : PackageInfo}
    (ht : (key, t) ∈ rates) (hp : (key', p) ∈ packageTypes) (w : JSNum)
    (ins : Option String) :
    computeCosts ⟨w, key, key', ins⟩ =
      Except.ok
        ⟨some (binary64 t.base), (parseFloat w).mul (binary64 t.perKg),
          some (binary64 p.fee), specSubtotal t p (parseFloat w),
          specInsurance (specSubtotal t p (parseFloat w)) (insuranceRequested ins),
          specTotal t p (parseFloat w) (insuranceRequested ins)⟩ := by
  unfold computeCosts
  simp only [getProperty_rates ht, getProperty_packageTypes hp]
  rfl

theorem calculateShipping_own (env : Env) {key key' : String} {t : Rate} {p : PackageInfo}
    (ht : (key, t) ∈ rates) (hp : (key', p) ∈ packageTypes) (w : JSNum)
    (ins : Option String) :
    calculateShipping env ⟨w, key, key', ins⟩ =
      Except.ok
        ⟨toFixed2 (binary64 t.base), toFixed2 ((parseFloat w).mul (binary64 t.perKg)),
          toFixed2 (binary64 p.fee),
          toFixed2 (specInsurance (specSubtotal t p (parseFloat w)) (insuranceRequested ins)),
          toFixed2 (specTotal t p (parseFloat w) (insuranceRequested ins)),
          calculateDeliveryDate env.today key, generateTrackingNumber env.now env.random,
          key, parseFloat w⟩ := by
  unfold calculateShipping
  rw [computeCosts_own ht hp]
  rfl

/-- The literals of `rates` as binary64 numbers. -/
theorem rates_fin {key : String} {t : Rate} (h : (key, t) ∈ rates) :
    binary64 t.base = JSNum.fin (roundToDouble t.base) ∧ 0 < roundToDouble t.base ∧
      roundToDouble t.base ≤ 2 ^ 5 ∧
      binary64 t.perKg = JSNum.fin (roundToDouble t.perKg) ∧ 0 < roundToDouble t.perKg ∧
      roundToDouble t.perKg ≤ 2 ^ 3 := by
  simp only [rates, List.mem_cons, Prod.mk.injEq, List.mem_singleton, List.not_mem_nil,
    or_false] at h
  rcases h with ⟨rfl, rfl⟩ | ⟨rfl, rfl⟩ | ⟨rfl, rfl⟩ <;> decide!

/-- The literals of `packageTypes` as binary64 numbers. -/
theorem packageTypes_fin {key : String} {p : PackageInfo} (h : (key, p) ∈ packageTypes) :
    binary64 p.fee = JSNum.fin (roundToDouble p.fee) ∧ 0 ≤ roundToDouble p.fee ∧
      roundToDouble p.fee ≤ 2 ^ 4 ∧
      binary64 p.multiplier = JSNum.fin (roundToDouble p.multiplier) ∧
      1 ≤ roundToDouble p.multiplier ∧ roundToDouble p.multiplier ≤ 2 ^ 1 := by
  simp only [packageTypes, List.mem_cons, Prod.mk.injEq, List.mem_singleton,
    List.not_mem_nil, or_false] at h
  rcases h with ⟨rfl, rfl⟩ | ⟨rfl, rfl⟩ | ⟨rfl, rfl⟩ | ⟨rfl, rfl⟩ <;> decide!

/-- The literals `0.03`, `5` and `0` of the insurance line as binary64 numbers. -/
theorem insurance_literals :
    binary64 0.03 = JSNum.fin (roundToDouble 0.03) ∧ 0 < roundToDouble 0.03 ∧
      roundToDouble 0.03 ≤ 1 ∧ binary64 5 = JSNum.fin 5 ∧ binary64 0 = JSNum.fin 0 := by
  decide!

theorem mul_fin_fin (a b : ℚ) : (JSNum.fin a).mul (JSNum.fin b) = binary64 (a * b) := rfl

theorem add_fin_fin (a b : ℚ) : (JSNum.fin a).add (JSNum.fin b) = binary64 (a + b) := rfl

theorem max_fin_fin (a b : ℚ) : JSNum.max (JSNum.fin a) (JSNum.fin b) = JSNum.fin (Max.max a b) :=
  rfl

theorem two_pow_le {a b : ℕ} (h : a ≤ b) : (2 : ℚ) ^ a ≤ (2 : ℚ) ^ b :=
  pow_le_pow_right₀ (by norm_num) h

/-- For a weight text in `[0, 2^k]`, `k ≤ 1000`, every number of the computation is
finite and non-negative, and the total is at least the subtotal. -/
theorem costs_finite {key key' : String} {t : Rate} {p : PackageInfo}
    (ht : (key, t) ∈ rates) (hp : (key', p) ∈ packageTypes) (w : ℚ) (k : ℕ)
    (hk : k ≤ 1000) (h0 : 0 ≤ w) (h1 : w ≤ (2 : ℚ) ^ k) (r : Bool) :
    ∃ W s i T : ℚ, parseFloat (JSNum.fin w) = JSNum.fin W ∧ 0 ≤ W ∧
      specSubtotal t p (JSNum.fin W) = JSNum.fin s ∧
      specInsurance (JSNum.fin s) r = JSNum.fin i ∧
      specTotal t p (JSNum.fin W) r = JSNum.fin T ∧
      0 ≤ s ∧ 0 ≤ i ∧ s ≤ T := by
  obtain ⟨eB, B0, B1, eP, P0, P1⟩ := rates_fin ht
  obtain ⟨eF, F0, F1, eM, M0, M1⟩ := packageTypes_fin hp
  obtain ⟨eC, C0, C1, e5, e0⟩ := insurance_literals
  obtain ⟨eW, W0, W1⟩ := binary64_of_bounds (k := k) (by omega) h0 h1
  have hwc : roundToDouble w * roundToDouble t.perKg ≤ (2 : ℚ) ^ (k + 3) := by
    rw [pow_add]
    exact mul_le_mul W1 P1 P0.le (by positivity)
  obtain ⟨ewc, wc0, wc1⟩ := binary64_of_bounds (k := k + 3) (by omega)
    (mul_nonneg W0 P0.le) hwc
  set wc := roundToDouble (roundToDouble w * roundToDouble t.perKg) with hwcd
  have hx1 : roundToDouble t.base + wc ≤ (2 : ℚ) ^ (k + 6) := by
    have a1 : (2 : ℚ) ^ 5 ≤ (2 : ℚ) ^ (k + 5) := two_pow_le (by omega)
    have a2 : (2 : ℚ) ^ (k + 3) ≤ (2 : ℚ) ^ (k + 5) := two_pow_le (by omega)
    have a3 : (2 : ℚ) ^ (k + 6) = 2 * (2 : ℚ) ^ (k + 5) := by rw [pow_succ]; ring
    linarith
  obtain ⟨ex1, x10, x11⟩ := binary64_of_bounds (k := k + 6) (by omega)
    (add_nonneg B0.le wc0) hx1
  set x1 := roundToDouble (roundToDouble t.base + wc) with hx1d
  have hx2 : x1 + roundToDouble p.fee ≤ (2 : ℚ) ^ (k + 7) := by
    have a1 : (2 : ℚ) ^ 4 ≤ (2 : ℚ) ^ (k + 6) := two_pow_le (by omega)
    have a3 : (2 : ℚ) ^ (k + 7) = 2 * (2 : ℚ) ^ (k + 6) := by rw [pow_succ]; ring
    linarith
  obtain ⟨ex2, x20, x21⟩ := binary64_of_bounds (k := k + 7) (by omega)
    (add_nonneg x10 F0) hx2
  set x2 := roundToDouble (x1 + roundToDouble p.fee) with hx2d
  have hs : x2 * roundToDouble p.multiplier ≤ (2 : ℚ) ^ (k + 8) := by
    have a3 : (2 : ℚ) ^ (k + 8) = (2 : ℚ) ^ (k + 7) * 2 ^ 1 := by rw [pow_succ]; ring
    rw [a3]
    exact mul_le_mul x21 M1 (by linarith) (by positivity)
  obtain ⟨es, s0, s1⟩ := binary64_of_bounds (k := k + 8) (by omega)
    (mul_nonneg x20 (by linarith)) hs
  set s := roundToDouble (x2 * roundToDouble p.multiplier) with hsd
  have hsub : specSubtotal t p (JSNum.fin (roundToDouble w)) = JSNum.fin s := by
    unfold specSubtotal
    rw [eB, eP, eF, eM, mul_fin_fin, ewc, add_fin_fin, ex1, add_fin_fin, ex2, mul_fin_fin, es]
  have sidem : roundToDouble s = s := roundToDouble_idem _
  have hins : ∃ i : ℚ, specInsurance (JSNum.fin s) r = JSNum.fin i ∧ 0 ≤ i ∧
      i ≤ (2 : ℚ) ^ (k + 8) := by
    cases r
    · refine ⟨0, ?_, le_refl 0, by positivity⟩
      simp [specInsurance, e0]
    · have hic : s * roundToDouble 0.03 ≤ (2 : ℚ) ^ (k + 8) := by
        have := mul_le_mul s1 C1 C0.le (by positivity)
        simpa using this
      obtain ⟨eic, ic0, ic1⟩ := binary64_of_bounds (k := k + 8) (by omega)
        (mul_nonneg s0 C0.le) hic
      refine ⟨Max.max (roundToDouble (s * roundToDouble 0.03)) 5, ?_, ?_, ?_⟩
      · simp only [specInsurance, if_true]
        rw [eC, e5, mul_fin_fin, eic, max_fin_fin]
      · exact le_trans ic0 (le_max_left _ _)
      · apply max_le ic1
        have a1 : (2 : ℚ) ^ 3 ≤ (2 : ℚ) ^ (k + 8) := two_pow_le (by omega)
        norm_num at a1
        linarith
  obtain ⟨i, ei, i0, i1⟩ := hins
  have hT : s + i ≤ (2 : ℚ) ^ (k + 9) := by
    have a3 : (2 : ℚ) ^ (k + 9) = 2 * (2 : ℚ) ^ (k + 8) := by rw [pow_succ]; ring
    linarith
  obtain ⟨eT, T0, T1⟩ := binary64_of_bounds (k := k + 9) (by omega) (add_nonneg s0 i0) hT
  refine ⟨roundToDouble w, s, i, roundToDouble (s + i), eW, W0, hsub, ei, ?_, s0, i0, ?_⟩
  · unfold specTotal
    rw [hsub, ei, add_fin_fin, eT]
  · exact roundToDouble_ge_of_idem sidem (by linarith)

/-! ### Order of numbers -/

theorem le_inf_of_nonneg {v : JSNum} (h : (JSNum.fin 0).le v = true) :
    v.le (JSNum.inf false) = true := by
  rcases v with v | _ | s
  · rfl
  · simp [JSNum.le] at h
  · cases s <;> simp [JSNum.le] at h ⊢

theorem fin_of_le_fin {a : JSNum} {y : ℚ} (h0 : (JSNum.fin 0).le a = true)
    (h : a.le (JSNum.fin y) = true) : ∃ x : ℚ, a = JSNum.fin x ∧ 0 ≤ x ∧ x ≤ y := by
  rcases a with a | _ | s
  · exact ⟨a, rfl, by simpa [JSNum.le] using h0, by simpa [JSNum.le] using h⟩
  · simp [JSNum.le] at h0
  · cases s <;> simp [JSNum.le] at h0 h

theorem mul_fin_mono {a b : JSNum} {C : ℚ} (hC : 0 < C) (h0 : (JSNum.fin 0).le a = true)
    (h : a.le b = true) :
    (JSNum.fin 0).le (a.mul (JSNum.fin C)) = true ∧
      (a.mul (JSNum.fin C)).le (b.mul (JSNum.fin C)) = true := by
  have hC0 : C ≠ 0 := hC.ne'
  have hCn : ¬ C < 0 := not_lt.mpr hC.le
  rcases a with a | _ | sa
  · have ha : 0 ≤ a := by simpa [JSNum.le] using h0
    have n1 := binary64_nonneg (mul_nonneg ha hC.le)
    rcases b with b | _ | sb
    · have hab : a ≤ b := by simpa [JSNum.le] using h
      exact ⟨n1, binary64_mono (mul_le_mul_of_nonneg_right hab hC.le)⟩
    · simp [JSNum.le] at h
    · cases sb
      · refine ⟨n1, ?_⟩
        simp only [JSNum.mul, mul_fin_fin, if_neg hC0, hCn, decide_False, Bool.xor_false]
        exact le_inf_of_nonneg n1
      · simp [JSNum.le] at h
  · simp [JSNum.le] at h0
  · cases sa
    · rcases b with b | _ | sb
      · simp [JSNum.le] at h
      · simp [JSNum.le] at h
      · cases sb
        · simp [JSNum.mul, JSNum.le, hC0, hCn]
        · simp [JSNum.le] at h
    · simp [JSNum.le] at h0

theorem add_mono {a b c d : JSNum} (ha : (JSNum.fin 0).le a = true) (hab : a.le b = true)
    (hc : (JSNum.fin 0).le c = true) (hcd : c.le d = true) :
    (JSNum.fin 0).le (a.add c) = true ∧ (a.add c).le (b.add d) = true := by
  rcases a with a | _ | sa
  · have ha' : 0 ≤ a := by simpa [JSNum.le] using ha
    rcases c with c | _ | sc
    · have hc' : 0 ≤ c := by simpa [JSNum.le] using hc
      have n1 := binary64_nonneg (add_nonneg ha' hc')
      rcases b with b | _ | sb
      · have hab' : a ≤ b := by simpa [JSNum.le] using hab
        rcases d with d | _ | sd
        · have hcd' : c ≤ d := by simpa [JSNum.le] using hcd
          exact ⟨n1, binary64_mono (add_le_add hab' hcd')⟩
        · simp [JSNum.le] at hcd
        · cases sd
          · exact ⟨n1, le_inf_of_nonneg n1⟩
          · simp [JSNum.le] at hcd
      · simp [JSNum.le] at hab
      · cases sb
        · rcases d with d | _ | sd
          · exact ⟨n1, le_inf_of_nonneg n1⟩
          · simp [JSNum.le] at hcd
          · cases sd
            · exact ⟨n1, le_inf_of_nonneg n1⟩
            · simp [JSNum.le] at hcd
        · simp [JSNum.le] at hab
    · simp [JSNum.le] at hc
    · cases sc
      · rcases d with d | _ | sd
        · simp [JSNum.le] at hcd
        · simp [JSNum.le] at hcd
        · cases sd
          · rcases b with b | _ | sb
            · simp [JSNum.add, JSNum.le]
            · simp [JSNum.le] at hab
            · cases sb
              · simp [JSNum.add, JSNum.le]
              · simp [JSNum.le] at hab
          · simp [JSNum.le] at hcd
      · simp [JSNum.le] at hc
  · simp [JSNum.le] at ha
  · cases sa
    · rcases b with b | _ | sb
      · simp [JSNum.le] at hab
      · simp [JSNum.le] at hab
      · cases sb
        · rcases c with c | _ | sc
          · rcases d with d | _ | sd
            · simp [JSNum.add, JSNum.le]
            · simp [JSNum.le] at hcd
            · cases sd
              · simp [JSNum.add, JSNum.le]
              · simp [JSNum.le] at hcd
          · simp [JSNum.le] at hc
          · cases sc
            · rcases d with d | _ | sd
              · simp [JSNum.le] at hcd
              · simp [JSNum.le] at hcd
              · cases sd
                · simp [JSNum.add, JSNum.le]
                · simp [JSNum.le] at hcd
            · simp [JSNum.le] at hc
        · simp [JSNum.le] at hab
    · simp [JSNum.le] at ha

theorem max_fin_mono {a b : JSNum} {C : ℚ} (_hC : 0 ≤ C) (h0 : (JSNum.fin 0).le a = true)
    (h : a.le b = true) :
    (JSNum.fin 0).le (JSNum.max a (JSNum.fin C)) = true ∧
      (JSNum.max a (JSNum.fin C)).le (JSNum.max b (JSNum.fin C)) = true := by
  rcases a with a | _ | sa
  · have ha : 0 ≤ a := by simpa [JSNum.le] using h0
    rcases b with b | _ | sb
    · have hab : a ≤ b := by simpa [JSNum.le] using h
      simp only [max_fin_fin, JSNum.le, decide_eq_true_eq]
      exact ⟨le_trans ha (le_max_left _ _), max_le_max hab le_rfl⟩
    · simp [JSNum.le] at h
    · cases sb
      · simp only [max_fin_fin, JSNum.max, JSNum.le, decide_eq_true_eq, and_true]
        exact le_trans ha (le_max_left _ _)
      · simp [JSNum.le] at h
  · simp [JSNum.le] at h0
  · cases sa
    · rcases b with b | _ | sb
      · simp [JSNum.le] at h
      · simp [JSNum.le] at h
      · cases sb
        · simp [JSNum.max, JSNum.le]
        · simp [JSNum.le] at h
    · simp [JSNum.le] at h0

theorem le_refl_fin (x : ℚ) : (JSNum.fin x).le (JSNum.fin x) = true := by
  simp [JSNum.le]

/-- The total does not decrease when the weight text grows from `w₁ ≥ 0` to `w₂`. -/
theorem specTotal_mono {key key' : String} {t : Rate} {p : PackageInfo}
    (ht : (key, t) ∈ rates) (hp : (key', p) ∈ packageTypes) {w₁ w₂ : ℚ} (h0 : 0 ≤ w₁)
    (h : w₁ ≤ w₂) (r : Bool) :
    (JSNum.fin 0).le (specTotal t p (parseFloat (JSNum.fin w₁)) r) = true ∧
      (specTotal t p (parseFloat (JSNum.fin w₁)) r).le
        (specTotal t p (parseFloat (JSNum.fin w₂)) r) = true := by
  obtain ⟨eB, B0, B1, eP, P0, P1⟩ := rates_fin ht
  obtain ⟨eF, F0, F1, eM, M0, M1⟩ := packageTypes_fin hp
  obtain ⟨eC, C0, C1, e5, e0⟩ := insurance_literals
  have hW0 : (JSNum.fin 0).le (parseFloat (JSNum.fin w₁)) = true := binary64_nonneg h0
  have hW : (parseFloat (JSNum.fin w₁)).le (parseFloat (JSNum.fin w₂)) = true :=
    binary64_mono h
  obtain ⟨wc0, wc⟩ := mul_fin_mono P0 hW0 hW
  have hB0 : (JSNum.fin 0).le (JSNum.fin (roundToDouble t.base)) = true := by
    simpa [JSNum.le] using B0.le
  obtain ⟨x10, x1⟩ := add_mono hB0 (le_refl_fin _) wc0 wc
  have hF0 : (JSNum.fin 0).le (JSNum.fin (roundToDouble p.fee)) = true := by
    simpa [JSNum.le] using F0
  obtain ⟨x20, x2⟩ := add_mono x10 x1 hF0 (le_refl_fin _)
  obtain ⟨s0, s⟩ := mul_fin_mono (show 0 < roundToDouble p.multiplier by linarith) x20 x2
  have hsub : ∀ W, specSubtotal t p W =
      ((((JSNum.fin (roundToDouble t.base)).add (W.mul (JSNum.fin (roundToDouble t.perKg)))).add
        (JSNum.fin (roundToDouble p.fee))).mul (JSNum.fin (roundToDouble p.multiplier))) := by
    intro W
    unfold specSubtotal
    rw [eB, eP, eF, eM]
  unfold specTotal
  rw [hsub, hsub]
  cases r
  · simp only [specInsurance, e0, Bool.false_eq_true, if_false]
    exact add_mono s0 s (le_refl_fin _) (le_refl_fin _)
  · simp only [specInsurance, eC, e5, if_true]
    obtain ⟨i0, i⟩ := mul_fin_mono C0 s0 s
    obtain ⟨m0, m⟩ := max_fin_mono (show (0 : ℚ) ≤ 5 by norm_num) i0 i
    exact add_mono s0 s m0 m



theorem DayFromYear_estimate (y : ℤ) :
    -146097 ≤ 146097 * (y - 1970) - 400 * DayFromYear y ∧
      146097 * (y - 1970) - 400 * DayFromYear y ≤ 146097 := by
  unfold DayFromYear; omega

theorem YearFromDay_spec (d : ℤ) :
    DayFromYear (YearFromDay d) ≤ d ∧ d < DayFromYear (YearFromDay d + 1) := by
  unfold YearFromDay
  simp only
  have e1 := DayFromYear_estimate (1970 + 400 * d / 146097 + 1 + 1)
  have e2 := DayFromYear_estimate (1970 + 400 * d / 146097 - 1)
  split_ifs with h1 h2
  · exact ⟨h1, by omega⟩
  · refine ⟨by omega, ?_⟩
    have : (1970 + 400 * d / 146097 - 1 + 1 : ℤ) = 1970 + 400 * d / 146097 := by ring
    rw [this]; exact h2
  · exact ⟨by omega, by omega⟩

theorem DayFromYear_mono {y z : ℤ} (h : y ≤ z) : DayFromYear y ≤ DayFromYear z := by
  unfold DayFromYear; omega

theorem DayFromYear_succ (y : ℤ) : DayFromYear (y + 1) = DayFromYear y + 365 + leapDays y := by
  unfold leapDays DaysInYear DayFromYear
  split_ifs <;> omega

theorem leapDays_cases (y : ℤ) : leapDays y = 0 ∨ leapDays y = 1 := by
  unfold leapDays
  split_ifs <;> simp

/-- The year of a day is the only one whose first day is not after it and whose
successor starts after it. -/
theorem YearFromDay_unique {d y : ℤ} (h1 : DayFromYear y ≤ d) (h2 : d < DayFromYear (y + 1)) :
    YearFromDay d = y := by
  obtain ⟨s1, s2⟩ := YearFromDay_spec d
  rcases lt_trichotomy (YearFromDay d) y with h | h | h
  · have := DayFromYear_mono (show YearFromDay d + 1 ≤ y by omega)
    omega
  · exact h
  · have := DayFromYear_mono (show y + 1 ≤ YearFromDay d by omega)
    omega

theorem Day_add_days (t k : ℤ) : Day (t + k * msPerDay) = Day t + k := by
  unfold Day msPerDay
  omega

theorem TimeWithinDay_add_days (t k : ℤ) : TimeWithinDay (t + k * msPerDay) = TimeWithinDay t := by
  unfold TimeWithinDay msPerDay
  omega

theorem DayWithinYear_bounds (t : ℤ) :
    0 ≤ DayWithinYear t ∧ DayWithinYear t < 365 + InLeapYear t := by
  obtain ⟨s1, s2⟩ := YearFromDay_spec (Day t)
  rw [DayFromYear_succ] at s2
  unfold DayWithinYear InLeapYear YearFromTime
  omega

theorem monthDate_first : ∀ l : ℕ, l < 2 → ∀ n : ℕ, n < 366 →
    0 ≤ monthFromDayInYear n l ∧ monthFromDayInYear n l ≤ 11 ∧
      daysBeforeMonth l (monthFromDayInYear n l) + dateFromDayInYear n l - 1 = n := by
  decide!

theorem monthDate_step : ∀ l : ℕ, l < 2 → ∀ n : ℕ, n < 366 → (n : ℤ) + 1 < 365 + (l : ℤ) →
    (dateFromDayInYear n l < daysInMonth l (monthFromDayInYear n l) ∧
      monthFromDayInYear ((n : ℤ) + 1) l = monthFromDayInYear n l ∧
      dateFromDayInYear ((n : ℤ) + 1) l = dateFromDayInYear n l + 1) ∨
    (dateFromDayInYear n l = daysInMonth l (monthFromDayInYear n l) ∧
      monthFromDayInYear n l < 11 ∧
      monthFromDayInYear ((n : ℤ) + 1) l = monthFromDayInYear n l + 1 ∧
      dateFromDayInYear ((n : ℤ) + 1) l = 1) := by
  decide!

theorem monthDate_ends : ∀ l : ℕ, l < 2 →
    monthFromDayInYear (364 + (l : ℤ)) l = 11 ∧ dateFromDayInYear (364 + (l : ℤ)) l = 31 ∧
      monthFromDayInYear 0 l = 0 ∧ dateFromDayInYear 0 l = 1 := by
  decide!

/-- `MakeDay` of the fields of a time value, with the day of the month shifted by `k`,
is the day of the time value shifted by `k`. -/
theorem MakeDay_fields (t k : ℤ) :
    MakeDay (YearFromTime t) (MonthFromTime t) (DateFromTime t + k) = Day t + k := by
  obtain ⟨b0, b1⟩ := DayWithinYear_bounds t
  obtain ⟨n, hn⟩ := Int.eq_ofNat_of_zero_le b0
  have hl := leapDays_cases (YearFromTime t)
  have key : 0 ≤ MonthFromTime t ∧ MonthFromTime t ≤ 11 ∧
      daysBeforeMonth (leapDays (YearFromTime t)) (MonthFromTime t) + DateFromTime t - 1 =
        DayWithinYear t := by
    unfold MonthFromTime DateFromTime
    unfold InLeapYear at b1 ⊢
    rw [hn] at b1 ⊢
    rcases hl with h | h <;> rw [h] at b1 ⊢
    · exact monthDate_first 0 (by decide) n (by omega)
    · exact monthDate_first 1 (by decide) n (by omega)
  obtain ⟨m0, m1, hd⟩ := key
  have hdiv : MonthFromTime t / 12 = 0 := by omega
  have hmod : MonthFromTime t % 12 = MonthFromTime t := by omega
  unfold MakeDay
  simp only [hdiv, hmod, add_zero]
  unfold DayWithinYear at hd
  omega

/-- Setting the day of the month to `getDate() + k` moves the time value by `k` days. -/
theorem setDate_getDate_add (t k : ℤ) : setDate t (getDate t + k) = t + k * msPerDay := by
  unfold setDate getDate
  rw [MakeDay_fields]
  unfold MakeDate Day TimeWithinDay msPerDay
  omega

/-- One day later the calendar shows the next day. -/
theorem calendarDate_succ (t : ℤ) : calendarDate (t + msPerDay) = nextDay (calendarDate t) := by
  obtain ⟨b0, b1⟩ := DayWithinYear_bounds t
  obtain ⟨s1, s2⟩ := YearFromDay_spec (Day t)
  have hday : Day (t + msPerDay) = Day t + 1 := by
    have := Day_add_days t 1
    simpa using this
  obtain ⟨n, hn⟩ := Int.eq_ofNat_of_zero_le b0
  have hl := leapDays_cases (YearFromTime t)
  have hsucc := DayFromYear_succ (YearFromTime t)
  have hsucc2 := DayFromYear_succ (YearFromTime t + 1)
  have hl2 := leapDays_cases (YearFromTime t + 1)
  unfold InLeapYear at b1
  by_cases hend : DayWithinYear t + 1 < 365 + leapDays (YearFromTime t)
  · have hy : YearFromTime (t + msPerDay) = YearFromTime t := by
      unfold YearFromTime
      rw [hday]
      apply YearFromDay_unique
      · omega
      · unfold DayWithinYear YearFromTime at hend
        unfold YearFromTime at hsucc
        omega
    have hw : DayWithinYear (t + msPerDay) = DayWithinYear t + 1 := by
      unfold DayWithinYear
      rw [hy, hday]
      ring
    have hstep :
        (dateFromDayInYear (DayWithinYear t) (leapDays (YearFromTime t)) <
            daysInMonth (leapDays (YearFromTime t))
              (monthFromDayInYear (DayWithinYear t) (leapDays (YearFromTime t))) ∧
          monthFromDayInYear (DayWithinYear t + 1) (leapDays (YearFromTime t)) =
            monthFromDayInYear (DayWithinYear t) (leapDays (YearFromTime t)) ∧
          dateFromDayInYear (DayWithinYear t + 1) (leapDays (YearFromTime t)) =
            dateFromDayInYear (DayWithinYear t) (leapDays (YearFromTime t)) + 1) ∨
        (dateFromDayInYear (DayWithinYear t) (leapDays (YearFromTime t)) =
            daysInMonth (leapDays (YearFromTime t))
              (monthFromDayInYear (DayWithinYear t) (leapDays (YearFromTime t))) ∧
          monthFromDayInYear (DayWithinYear t) (leapDays (YearFromTime t)) < 11 ∧
          monthFromDayInYear (DayWithinYear t + 1) (leapDays (YearFromTime t)) =
            monthFromDayInYear (DayWithinYear t) (leapDays (YearFromTime t)) + 1 ∧
          dateFromDayInYear (DayWithinYear t + 1) (leapDays (YearFromTime t)) = 1) := by
      rw [hn] at b1 hend ⊢
      rcases hl with h | h <;> rw [h] at b1 hend ⊢
      · exact monthDate_step 0 (by decide) n (by omega) (by omega)
      · exact monthDate_step 1 (by decide) n (by omega) (by omega)
    unfold calendarDate nextDay MonthFromTime DateFromTime InLeapYear
    simp only [hy, hw]
    rcases hstep with ⟨h1, h2, h3⟩ | ⟨h1, h2, h3, h4⟩
    · rw [if_pos h1, h2, h3]
    · rw [if_neg (by omega), if_pos h2, h3, h4]
  · have hw0 : DayWithinYear t = 364 + leapDays (YearFromTime t) := by omega
    have hy : YearFromTime (t + msPerDay) = YearFromTime t + 1 := by
      unfold YearFromTime
      rw [hday]
      apply YearFromDay_unique
      · unfold DayWithinYear YearFromTime at hw0
        unfold YearFromTime at hsucc
        omega
      · unfold DayWithinYear YearFromTime at hw0
        unfold YearFromTime at hsucc hsucc2 hl2
        omega
    have hw : DayWithinYear (t + msPerDay) = 0 := by
      unfold DayWithinYear
      rw [hy, hday]
      unfold DayWithinYear at hw0
      omega
    have hends : ∀ l : ℤ, l = 0 ∨ l = 1 →
        monthFromDayInYear (364 + l) l = 11 ∧ dateFromDayInYear (364 + l) l = 31 ∧
          monthFromDayInYear 0 l = 0 ∧ dateFromDayInYear 0 l = 1 := by
      intro l hl'
      rcases hl' with rfl | rfl
      · exact monthDate_ends 0 (by decide)
      · exact monthDate_ends 1 (by decide)
    obtain ⟨e1, e2, _, _⟩ := hends _ hl
    obtain ⟨_, _, e3, e4⟩ := hends _ hl2
    unfold calendarDate nextDay MonthFromTime DateFromTime InLeapYear
    simp only [hy, hw, hw0, e1, e2, e3, e4]
    simp [daysInMonth]

/-- After `k` days the calendar shows the `k`-th next day. -/
theorem calendarDate_add_days (t : ℤ) (k : ℕ) :
    calendarDate (t + (k : ℤ) * msPerDay) = nextDay^[k] (calendarDate t) := by
  induction k with
  | zero => simp
  | succ k ih =>
    rw [Function.iterate_succ_apply', ← ih, ← calendarDate_succ]
    congr 1
    push_cast
    ring

/-! ## Membership in the tables -/

theorem standard_mem : ("standard", (⟨5.99, 2.50, 1.0⟩ : Rate)) ∈ rates := by simp [rates]

theorem express_mem : ("express", (⟨12.99, 4.00, 1.5⟩ : Rate)) ∈ rates := by simp [rates]

theorem overnight_mem : ("overnight", (⟨25.99, 6.50, 2.0⟩ : Rate)) ∈ rates := by
  simp [rates]

theorem document_mem : ("document", (⟨0, 1.0⟩ : PackageInfo)) ∈ packageTypes := by
  simp [packageTypes]

theorem package_mem : ("package", (⟨2.50, 1.0⟩ : PackageInfo)) ∈ packageTypes := by
  simp [packageTypes]

theorem fragile_mem : ("fragile", (⟨8.00, 1.3⟩ : PackageInfo)) ∈ packageTypes := by
  simp [packageTypes]

theorem hazardous_mem : ("hazardous", (⟨15.00, 1.8⟩ : PackageInfo)) ∈ packageTypes := by
  simp [packageTypes]

/-! ## Lemmas on unknown keys and on the range of numbers -/

/-- A key inherited from `Object.prototype` passes the table read, takes the default
branch of the `switch`, and fails at `baseCost.toFixed(2)`. -/
theorem calculateShipping_inherited_key (env : Env) (w : JSNum) (ins : Option String) :
    getProperty rates "toString" = Member.inherited ∧
      (∃ c, computeCosts ⟨w, "toString", "package", ins⟩ = Except.ok c ∧ c.baseCost = none) ∧
      deliveryDays "toString" = 6 ∧
      calculateShipping env ⟨w, "toString", "package", ins⟩ =
        Except.error JSError.TypeError := by
  have h : getProperty rates "toString" = Member.inherited := by rfl
  refine ⟨h, ?_, by decide, calculateShipping_error env _ (Or.inl (Or.inl h))⟩
  unfold computeCosts
  simp only [h, getProperty_packageTypes package_mem]
  exact ⟨_, rfl, rfl⟩

theorem binary64_ne_nan (x : ℚ) : binary64 x ≠ JSNum.nan := by
  rcases binary64_cases x with ⟨e, _⟩ | ⟨e, _⟩ <;> rw [e] <;> simp

theorem mul_fin_ne_nan {a : JSNum} {C : ℚ} (hC : C ≠ 0) (ha : a ≠ JSNum.nan) :
    a.mul (JSNum.fin C) ≠ JSNum.nan := by
  rcases a with a | _ | s
  · exact binary64_ne_nan _
  · exact absurd rfl ha
  · simp [JSNum.mul, hC]

theorem add_fin_ne_nan {a : JSNum} (C : ℚ) (ha : a ≠ JSNum.nan) :
    a.add (JSNum.fin C) ≠ JSNum.nan ∧ (JSNum.fin C).add a ≠ JSNum.nan := by
  rcases a with a | _ | s
  · exact ⟨binary64_ne_nan _, binary64_ne_nan _⟩
  · exact absurd rfl ha
  · simp [JSNum.add]

theorem le_max_fin {x : JSNum} (C : ℚ) (hx : x ≠ JSNum.nan) :
    (JSNum.fin C).le (JSNum.max x (JSNum.fin C)) = true ∧
      x.le (JSNum.max x (JSNum.fin C)) = true := by
  rcases x with x | _ | s
  · simp [JSNum.max, JSNum.le]
  · exact absurd rfl hx
  · cases s <;> simp [JSNum.max, JSNum.le]

/-- For a weight text that denotes a number, the subtotal is a number too. -/
theorem specSubtotal_ne_nan {key key' : String} {t : Rate} {p : PackageInfo}
    (ht : (key, t) ∈ rates) (hp : (key', p) ∈ packageTypes) (w : ℚ) :
    specSubtotal t p (parseFloat (JSNum.fin w)) ≠ JSNum.nan := by
  obtain ⟨eB, B0, B1, eP, P0, P1⟩ := rates_fin ht
  obtain ⟨eF, F0, F1, eM, M0, M1⟩ := packageTypes_fin hp
  unfold specSubtotal
  rw [eB, eP, eF, eM]
  have h1 : (parseFloat (JSNum.fin w)).mul (JSNum.fin (roundToDouble t.perKg)) ≠ JSNum.nan :=
    mul_fin_ne_nan P0.ne' (binary64_ne_nan w)
  have h2 := (add_fin_ne_nan (roundToDouble t.base) h1).2
  have h3 := (add_fin_ne_nan (roundToDouble p.fee) h2).1
  exact mul_fin_ne_nan (show roundToDouble p.multiplier ≠ 0 by linarith) h3

/-! ## The claims on the price -/

/-- C1. For every weight text that denotes a number, every entry of `rates`, every
entry of `packageTypes` and every value of the insurance field, `calculateShipping`
returns a quote.  Its subtotal is `(base + weight * perKg + fee) * multiplier` with the
multiplier of the package type, evaluated with the operators of the language and not
rounded to cents on the way; the multiplier of the tier plays no part (any other
value of it gives the same subtotal); its total is subtotal plus insurance; and the
field `totalCost` is `toFixed(2)` of that total: when the total is finite, within half
a hundredth of it and, below `10^21`, a whole number of hundredths. -/
theorem calculateShipping_formula (env : Env) {key key' : String} {t : Rate}
    {p : PackageInfo} (ht : (key, t) ∈ rates) (hp : (key', p) ∈ packageTypes) (w : ℚ)
    (ins : Option String) :
    ∃ c q, computeCosts ⟨JSNum.fin w, key, key', ins⟩ = Except.ok c ∧
      calculateShipping env ⟨JSNum.fin w, key, key', ins⟩ = Except.ok q ∧
      c.subtotal =
        (((binary64 t.base).add ((parseFloat (JSNum.fin w)).mul (binary64 t.perKg))).add
          (binary64 p.fee)).mul (binary64 p.multiplier) ∧
      (∀ m : ℚ, specSubtotal ⟨t.base, t.perKg, m⟩ p (parseFloat (JSNum.fin w)) = c.subtotal) ∧
      c.insuranceCost = specInsurance c.subtotal (insuranceRequested ins) ∧
      c.totalCost = c.subtotal.add c.insuranceCost ∧
      c.totalCost ≠ JSNum.nan ∧
      q.totalCost = toFixed2 c.totalCost ∧
      ∀ T : ℚ, c.totalCost = JSNum.fin T →
        ∃ v : ℚ, q.totalCost.value = some v ∧ |v - T| ≤ 1 / 200 ∧
          (|T| < 10 ^ 21 → ∃ n : ℤ, v = n / 100) := by
  refine ⟨_, _, computeCosts_own ht hp _ ins, calculateShipping_own env ht hp _ ins,
    rfl, fun _ => rfl, rfl, rfl, ?_, rfl, ?_⟩
  · have hs := specSubtotal_ne_nan ht hp w
    obtain ⟨eC, C0, C1, e5, e0⟩ := insurance_literals
    show specTotal t p (parseFloat (JSNum.fin w)) (insuranceRequested ins) ≠ JSNum.nan
    unfold specTotal specInsurance
    rw [eC, e5, e0]
    cases insuranceRequested ins
    · exact (add_fin_ne_nan 0 hs).1
    · simp only [if_true]
      rcases hx : (specSubtotal t p (parseFloat (JSNum.fin w))).mul
          (JSNum.fin (roundToDouble 0.03)) with x | _ | s
      · rw [max_fin_fin]
        exact (add_fin_ne_nan _ hs).1
      · exact absurd hx (mul_fin_ne_nan C0.ne' hs)
      · rcases hy : specSubtotal t p (parseFloat (JSNum.fin w)) with y | _ | sy
        · rw [hy] at hx
          cases s
          · simp [JSNum.max, JSNum.add]
          · simp only [JSNum.max]
            exact binary64_ne_nan _
        · exact absurd hy hs
        · rw [hy] at hx
          simp only [JSNum.mul, if_neg C0.ne', not_lt.mpr C0.le, decide_False,
            Bool.xor_false, JSNum.inf.injEq] at hx
          subst hx
          cases sy <;> simp [JSNum.max, JSNum.add]
  · intro T hT
    have hq : toFixed2 (specTotal t p (parseFloat (JSNum.fin w)) (insuranceRequested ins)) =
        toFixed2 (JSNum.fin T) := congrArg toFixed2 hT
    show ∃ v : ℚ,
      (toFixed2 (specTotal t p (parseFloat (JSNum.fin w)) (insuranceRequested ins))).value =
        some v ∧ _
    rw [hq]
    exact toFixed2_value T

theorem calculateShipping_formula_witness :
    ∃ c q, computeCosts ⟨JSNum.fin 0.25, "overnight", "document", none⟩ = Except.ok c ∧
      calculateShipping ⟨1793828520000, 1793828520123, 1 / 3⟩
        ⟨JSNum.fin 0.25, "overnight", "document", none⟩ = Except.ok q ∧
      c.subtotal =
        (((binary64 25.99).add ((parseFloat (JSNum.fin 0.25)).mul (binary64 6.50))).add
          (binary64 0)).mul (binary64 1.0) ∧
      (∀ m : ℚ, specSubtotal ⟨25.99, 6.50, m⟩ ⟨0, 1.0⟩ (parseFloat (JSNum.fin 0.25)) =
        c.subtotal) ∧
      c.insuranceCost = specInsurance c.subtotal (insuranceRequested none) ∧
      c.totalCost = c.subtotal.add c.insuranceCost ∧
      c.totalCost ≠ JSNum.nan ∧
      q.totalCost = toFixed2 c.totalCost ∧
      ∀ T : ℚ, c.totalCost = JSNum.fin T →
        ∃ v : ℚ, q.totalCost.value = some v ∧ |v - T| ≤ 1 / 200 ∧
          (|T| < 10 ^ 21 → ∃ n : ℤ, v = n / 100) :=
  calculateShipping_formula ⟨1793828520000, 1793828520123, 1 / 3⟩ overnight_mem document_mem 0.25 none

/-- C2. A request whose `shippingType` is not a key of `rates`, or whose `packageType`
is not a key of `packageTypes`, makes `calculateShipping` fail: it raises the
`TypeError` of the read on `undefined` (the only error of the class, the
specification's `InvalidInput`) and returns no quote, whatever the weight, the
insurance field, the clock and the random source are.  The default branch of
`calculateDeliveryDate` never reaches a returned quote. -/
theorem calculateShipping_unknown_key_fails (env : Env) (data : FormData)
    (h : data.shippingType ∉ rates.map Prod.fst ∨
      data.packageType ∉ packageTypes.map Prod.fst) :
    rates.map Prod.fst = ["standard", "express", "overnight"] ∧
      packageTypes.map Prod.fst = ["document", "package", "fragile", "hazardous"] ∧
      calculateShipping env data = Except.error JSError.TypeError ∧
      ∀ q, calculateShipping env data ≠ Except.ok q := by
  have hfail : calculateShipping env data = Except.error JSError.TypeError := by
    apply calculateShipping_error
    rcases h with h | h
    · exact Or.inl (getProperty_not_own rates _ h)
    · exact Or.inr (getProperty_not_own packageTypes _ h)
  refine ⟨rfl, rfl, hfail, ?_⟩
  intro q hq
  rw [hfail] at hq
  cases hq

theorem calculateShipping_unknown_key_fails_witness :
    ("priority" ∉ rates.map Prod.fst ∨ "package" ∉ packageTypes.map Prod.fst) ∧
      rates.map Prod.fst = ["standard", "express", "overnight"] ∧
      packageTypes.map Prod.fst = ["document", "package", "fragile", "hazardous"] ∧
      calculateShipping ⟨1793828520000, 1793828520123, 1 / 3⟩
        ⟨JSNum.fin 10, "priority", "package", none⟩ = Except.error JSError.TypeError ∧
      ∀ q, calculateShipping ⟨1793828520000, 1793828520123, 1 / 3⟩
        ⟨JSNum.fin 10, "priority", "package", none⟩ ≠ Except.ok q :=
  ⟨Or.inl (by decide),
    calculateShipping_unknown_key_fails ⟨1793828520000, 1793828520123, 1 / 3⟩
      ⟨JSNum.fin 10, "priority", "package", none⟩ (Or.inl (by decide))⟩

/-- C3, as stated, fails: a negative weight and a weight above 1000 are both quoted.
With `weight = -1` (standard, document) the call returns a quote whose weight cost is
`-2.50`, and with `weight = 1000.0001` it returns a quote as well. -/
theorem calculateShipping_out_of_range_weight_quoted :
    (∃ q, calculateShipping ⟨1793828520000, 1793828520123, 1 / 3⟩
        ⟨JSNum.fin (-1), "standard", "document", none⟩ = Except.ok q ∧
        q.weightCost.render = some "-2.50" ∧ q.totalCost.render = some "3.49") ∧
      ∃ q, calculateShipping ⟨1793828520000, 1793828520123, 1 / 3⟩
        ⟨JSNum.fin 1000.0001, "standard", "document", none⟩ = Except.ok q ∧
        q.totalCost.render = some "2505.99" := by
  refine ⟨⟨_, calculateShipping_own _ standard_mem document_mem _ _, ?_, ?_⟩,
    ⟨_, calculateShipping_own _ standard_mem document_mem _ _, ?_⟩⟩
  · dsimp only; decide!
  · dsimp only; decide!
  · dsimp only; decide!

/-- C3, amended. For every entry of `rates` and of `packageTypes`, `calculateShipping`
returns a quote for every weight: for 1000, and equally for a negative weight or one
above 1000, since the method checks no range.  The range is kept by the `input`
handler of `addValidation`, which leaves a value of `[0, 1000]` as it is, turns a
negative value into 0 and a value above 1000 into 1000. -/
theorem calculateShipping_any_weight_quoted (env : Env) {key key' : String} {t : Rate}
    {p : PackageInfo} (ht : (key, t) ∈ rates) (hp : (key', p) ∈ packageTypes)
    (ins : Option String) :
    (∃ q, calculateShipping env ⟨JSNum.fin 1000, key, key', ins⟩ = Except.ok q) ∧
      (∀ w : JSNum, ∃ q, calculateShipping env ⟨w, key, key', ins⟩ = Except.ok q) ∧
      (∀ v : ℚ, 0 ≤ v → v ≤ 1000 → weightInput (JSNum.fin v) = JSNum.fin v) ∧
      (∀ v : ℚ, v < 0 → weightInput (JSNum.fin v) = JSNum.fin 0) ∧
      (∀ v : ℚ, 1000 < v → weightInput (JSNum.fin v) = JSNum.fin 1000) := by
  have hall : ∀ w : JSNum, ∃ q, calculateShipping env ⟨w, key, key', ins⟩ = Except.ok q := by
    intro w
    unfold calculateShipping
    rw [computeCosts_own ht hp]
    exact ⟨_, rfl⟩
  refine ⟨hall _, hall, ?_, ?_, ?_⟩
  · intro v h0 h1
    simp [weightInput, JSNum.lt, not_lt.mpr h0, not_lt.mpr h1]
  · intro v h0
    simp [weightInput, JSNum.lt, h0]
  · intro v h1
    have h0 : ¬ v < 0 := by
      intro h
      linarith
    simp [weightInput, JSNum.lt, h0, h1]

theorem calculateShipping_any_weight_quoted_witness :
    (∃ q, calculateShipping ⟨1793828520000, 1793828520123, 1 / 3⟩
        ⟨JSNum.fin 1000, "express", "fragile", none⟩ = Except.ok q) ∧
      (∀ w : JSNum, ∃ q, calculateShipping ⟨1793828520000, 1793828520123, 1 / 3⟩
        ⟨w, "express", "fragile", none⟩ = Except.ok q) ∧
      (∀ v : ℚ, 0 ≤ v → v ≤ 1000 → weightInput (JSNum.fin v) = JSNum.fin v) ∧
      (∀ v : ℚ, v < 0 → weightInput (JSNum.fin v) = JSNum.fin 0) ∧
      (∀ v : ℚ, 1000 < v → weightInput (JSNum.fin v) = JSNum.fin 1000) :=
  calculateShipping_any_weight_quoted ⟨1793828520000, 1793828520123, 1 / 3⟩ express_mem
    fragile_mem none

/-- C4, as stated, fails: for weight 5, overnight, hazardous, no insurance, the call
returns no quote whose `totalCost` reads `133.48`. -/
theorem calculateShipping_overnight_hazardous_not_133_48 :
    ¬ ∃ q, calculateShipping ⟨1793828520000, 1793828520123, 1 / 3⟩
        ⟨JSNum.fin 5, "overnight", "hazardous", none⟩ = Except.ok q ∧
      q.totalCost.render = some "133.48" := by
  rintro ⟨q, hq, hr⟩
  rw [calculateShipping_own _ overnight_mem hazardous_mem] at hq
  cases hq
  exact absurd hr (by decide!)

/-- C4, amended. For weight 5, overnight, hazardous, no insurance, `calculateShipping`
returns `baseCost` 25.99, `weightCost` 32.50, `serviceFee` 15.00, `insuranceCost` 0.00
and `totalCost` 132.28: the subtotal is `(25.99 + 32.50 + 15.00) * 1.8 = 132.282`, which
the code holds as the binary64 number `132.28199999999998...`. -/
theorem calculateShipping_overnight_hazardous (env : Env) :
    ∃ c q, computeCosts ⟨JSNum.fin 5, "overnight", "hazardous", none⟩ = Except.ok c ∧
      calculateShipping env ⟨JSNum.fin 5, "overnight", "hazardous", none⟩ = Except.ok q ∧
      c.subtotal = JSNum.fin (2327129554327437 / 17592186044416) ∧
      |(2327129554327437 / 17592186044416 : ℚ) - 132.282| < 1 / 10 ^ 13 ∧
      ((25.99 : ℚ) + 32.50 + 15.00) * 1.8 = 132.282 ∧
      q.baseCost.render = some "25.99" ∧
      q.weightCost.render = some "32.50" ∧
      q.serviceFee.render = some "15.00" ∧
      q.insuranceCost.render = some "0.00" ∧
      q.totalCost.render = some "132.28" := by
  refine ⟨_, _, computeCosts_own overnight_mem hazardous_mem _ _,
    calculateShipping_own env overnight_mem hazardous_mem _ _, ?_, ?_, ?_, ?_, ?_, ?_, ?_, ?_⟩
  · dsimp only; decide!
  · decide!
  · norm_num
  · dsimp only; decide!
  · dsimp only; decide!
  · dsimp only; decide!
  · dsimp only; decide!
  · dsimp only; decide!

/-- C5. For every weight text that denotes a number, every entry of `rates`, every
entry of `packageTypes` and every value of the insurance field, the insurance cost
computed by `calculateShipping` is exactly 0 when the field is not `'on'`; when it is
`'on'` the cost is `Math.max(subtotal * 0.03, 5)`, hence at least 5 and at least the
3% of the subtotal that the code computes, the binary64 product `subtotal * 0.03`.
The field `insuranceCost` of the quote is `toFixed(2)` of that number. -/
theorem calculateShipping_insurance (env : Env) {key key' : String} {t : Rate}
    {p : PackageInfo} (ht : (key, t) ∈ rates) (hp : (key', p) ∈ packageTypes) (w : ℚ)
    (ins : Option String) :
    ∃ c q, computeCosts ⟨JSNum.fin w, key, key', ins⟩ = Except.ok c ∧
      calculateShipping env ⟨JSNum.fin w, key, key', ins⟩ = Except.ok q ∧
      q.insuranceCost = toFixed2 c.insuranceCost ∧
      (ins ≠ some "on" → c.insuranceCost = JSNum.fin 0) ∧
      (ins = some "on" →
        c.insuranceCost = JSNum.max (c.subtotal.mul (binary64 0.03)) (JSNum.fin 5) ∧
        (JSNum.fin 5).le c.insuranceCost = true ∧
        (c.subtotal.mul (binary64 0.03)).le c.insuranceCost = true) := by
  obtain ⟨eC, C0, C1, e5, e0⟩ := insurance_literals
  refine ⟨_, _, computeCosts_own ht hp _ ins, calculateShipping_own env ht hp _ ins,
    rfl, ?_, ?_⟩
  · intro h
    show specInsurance _ (insuranceRequested ins) = JSNum.fin 0
    simp [specInsurance, insuranceRequested, h, e0]
  · intro h
    have hi : specInsurance (specSubtotal t p (parseFloat (JSNum.fin w)))
        (insuranceRequested ins) =
        JSNum.max ((specSubtotal t p (parseFloat (JSNum.fin w))).mul (binary64 0.03))
          (JSNum.fin 5) := by
      simp [specInsurance, insuranceRequested, h, e5]
    show specInsurance _ (insuranceRequested ins) = _ ∧
      (JSNum.fin 5).le (specInsurance _ (insuranceRequested ins)) = true ∧
      JSNum.le _ (specInsurance _ (insuranceRequested ins)) = true
    rw [hi]
    have hne : (specSubtotal t p (parseFloat (JSNum.fin w))).mul (binary64 0.03) ≠
        JSNum.nan := by
      rw [eC]
      exact mul_fin_ne_nan C0.ne' (specSubtotal_ne_nan ht hp w)
    exact ⟨rfl, (le_max_fin 5 hne).1, (le_max_fin 5 hne).2⟩

theorem calculateShipping_insurance_witness :
    ∃ c q, computeCosts ⟨JSNum.fin 22.54, "overnight", "document", some "on"⟩ = Except.ok c ∧
      calculateShipping ⟨1793828520000, 1793828520123, 1 / 3⟩
        ⟨JSNum.fin 22.54, "overnight", "document", some "on"⟩ = Except.ok q ∧
      q.insuranceCost = toFixed2 c.insuranceCost ∧
      (some "on" ≠ some "on" → c.insuranceCost = JSNum.fin 0) ∧
      (some "on" = some "on" →
        c.insuranceCost = JSNum.max (c.subtotal.mul (binary64 0.03)) (JSNum.fin 5) ∧
        (JSNum.fin 5).le c.insuranceCost = true ∧
        (c.subtotal.mul (binary64 0.03)).le c.insuranceCost = true) :=
  calculateShipping_insurance ⟨1793828520000, 1793828520123, 1 / 3⟩ overnight_mem document_mem 22.54 (some "on")

/-- C6. For weight 10, standard, package, `calculateShipping` returns `baseCost` 5.99,
`weightCost` 25.00 and `serviceFee` 2.50; without insurance `insuranceCost` 0.00 and
`totalCost` 33.49, and with insurance the same three items, `insuranceCost` 5.00
(the larger of `33.49 * 0.03` and 5) and `totalCost` 38.49. -/
theorem calculateShipping_standard_package (env : Env) :
    (∃ q, calculateShipping env ⟨JSNum.fin 10, "standard", "package", none⟩ = Except.ok q ∧
        q.baseCost.render = some "5.99" ∧
        q.weightCost.render = some "25.00" ∧
        q.serviceFee.render = some "2.50" ∧
        q.insuranceCost.render = some "0.00" ∧
        q.totalCost.render = some "33.49") ∧
      (∃ c q, computeCosts ⟨JSNum.fin 10, "standard", "package", some "on"⟩ = Except.ok c ∧
        calculateShipping env ⟨JSNum.fin 10, "standard", "package", some "on"⟩ =
          Except.ok q ∧
        c.subtotal = binary64 33.49 ∧
        c.insuranceCost = JSNum.fin (Max.max (33.49 * 0.03) 5) ∧
        q.baseCost.render = some "5.99" ∧
        q.weightCost.render = some "25.00" ∧
        q.serviceFee.render = some "2.50" ∧
        q.insuranceCost.render = some "5.00" ∧
        q.totalCost.render = some "38.49") := by
  refine ⟨⟨_, calculateShipping_own env standard_mem package_mem _ _, ?_, ?_, ?_, ?_, ?_⟩,
    ⟨_, _, computeCosts_own standard_mem package_mem _ _,
      calculateShipping_own env standard_mem package_mem _ _, ?_, ?_, ?_, ?_, ?_, ?_, ?_⟩⟩
  · dsimp only; decide!
  · dsimp only; decide!
  · dsimp only; decide!
  · dsimp only; decide!
  · dsimp only; decide!
  · dsimp only; decide!
  · dsimp only; decide!
  · dsimp only; decide!
  · dsimp only; decide!
  · dsimp only; decide!
  · dsimp only; decide!
  · dsimp only; decide!

/-- C9. For every weight in `[0, 1000]`, every entry of `rates`, every entry of
`packageTypes` and every value of the insurance field, the subtotal and the total that
`calculateShipping` computes satisfy `totalCost ≥ subtotal ≥ 0`; the field `totalCost`
of the returned quote denotes a non-negative number as well. -/
theorem calculateShipping_total_ge_subtotal (env : Env) {key key' : String} {t : Rate}
    {p : PackageInfo} (ht : (key, t) ∈ rates) (hp : (key', p) ∈ packageTypes) (w : ℚ)
    (ins : Option String) (h0 : 0 ≤ w) (h1 : w ≤ 1000) :
    ∃ c q s T v, computeCosts ⟨JSNum.fin w, key, key', ins⟩ = Except.ok c ∧
      calculateShipping env ⟨JSNum.fin w, key, key', ins⟩ = Except.ok q ∧
      c.subtotal = JSNum.fin s ∧ c.totalCost = JSNum.fin T ∧ 0 ≤ s ∧ s ≤ T ∧
      q.totalCost.value = some v ∧ 0 ≤ v := by
  obtain ⟨W, s, i, T, eW, W0, es, ei, eT, s0, i0, sT⟩ :=
    costs_finite ht hp w 10 (by norm_num) h0 (by norm_num; linarith) (insuranceRequested ins)
  have hT : 0 ≤ T := le_trans s0 sT
  refine ⟨_, _, s, T, fixedValue T, computeCosts_own ht hp _ ins,
    calculateShipping_own env ht hp _ ins, ?_, ?_, s0, sT, ?_, fixedValue_nonneg _ hT⟩
  · show specSubtotal t p (parseFloat (JSNum.fin w)) = JSNum.fin s
    rw [eW, es]
  · show specTotal t p (parseFloat (JSNum.fin w)) (insuranceRequested ins) = JSNum.fin T
    rw [eW, eT]
  · show (toFixed2 (specTotal t p (parseFloat (JSNum.fin w)) (insuranceRequested ins))).value =
      some (fixedValue T)
    rw [eW, eT]
    exact toFixed2_value_nonneg hT

theorem calculateShipping_total_ge_subtotal_witness :
    (0 : ℚ) ≤ 1000 ∧ (1000 : ℚ) ≤ 1000 ∧
      ∃ c q s T v,
        computeCosts ⟨JSNum.fin 1000, "overnight", "hazardous", some "on"⟩ = Except.ok c ∧
        calculateShipping ⟨1793828520000, 1793828520123, 1 / 3⟩
          ⟨JSNum.fin 1000, "overnight", "hazardous", some "on"⟩ = Except.ok q ∧
        c.subtotal = JSNum.fin s ∧ c.totalCost = JSNum.fin T ∧ 0 ≤ s ∧ s ≤ T ∧
        q.totalCost.value = some v ∧ 0 ≤ v :=
  ⟨by norm_num, by norm_num,
    calculateShipping_total_ge_subtotal ⟨1793828520000, 1793828520123, 1 / 3⟩ overnight_mem
      hazardous_mem 1000 (some "on") (by norm_num) (by norm_num)⟩

/-- C10. For a fixed entry of `rates`, entry of `packageTypes` and insurance field, the
total of `calculateShipping` does not decrease with the weight: for `0 ≤ w₁ ≤ w₂` both
calls return a quote and the unrounded totals are ordered, `total(w₁) <= total(w₂)`.
When the larger total is finite, which it is for every `w₂` up to `2^1000`, both are
numbers `T₁ ≤ T₂` and the numbers that the two `totalCost` fields denote are ordered
the same way; otherwise the larger total is `Infinity`.  This covers the weights on
either side of the point where the insurance leaves its minimum of 5. -/
theorem calculateShipping_total_mono (env : Env) {key key' : String} {t : Rate}
    {p : PackageInfo} (ht : (key, t) ∈ rates) (hp : (key', p) ∈ packageTypes)
    (ins : Option String) (w₁ w₂ : ℚ) (h0 : 0 ≤ w₁) (h : w₁ ≤ w₂) :
    ∃ c₁ c₂ q₁ q₂,
      computeCosts ⟨JSNum.fin w₁, key, key', ins⟩ = Except.ok c₁ ∧
      computeCosts ⟨JSNum.fin w₂, key, key', ins⟩ = Except.ok c₂ ∧
      calculateShipping env ⟨JSNum.fin w₁, key, key', ins⟩ = Except.ok q₁ ∧
      calculateShipping env ⟨JSNum.fin w₂, key, key', ins⟩ = Except.ok q₂ ∧
      c₁.totalCost.le c₂.totalCost = true ∧
      (c₂.totalCost = JSNum.inf false ∨ ∃ T₂ : ℚ, c₂.totalCost = JSNum.fin T₂) ∧
      (w₂ ≤ 2 ^ 1000 → ∃ T₂ : ℚ, c₂.totalCost = JSNum.fin T₂) ∧
      ∀ T₂ : ℚ, c₂.totalCost = JSNum.fin T₂ →
        ∃ T₁ v₁ v₂, c₁.totalCost = JSNum.fin T₁ ∧ T₁ ≤ T₂ ∧
          q₁.totalCost.value = some v₁ ∧ q₂.totalCost.value = some v₂ ∧ v₁ ≤ v₂ := by
  obtain ⟨n1, m⟩ := specTotal_mono ht hp h0 h (insuranceRequested ins)
  obtain ⟨n2, _⟩ := specTotal_mono ht hp (le_trans h0 h) (le_refl w₂) (insuranceRequested ins)
  refine ⟨_, _, _, _, computeCosts_own ht hp _ ins, computeCosts_own ht hp _ ins,
    calculateShipping_own env ht hp _ ins, calculateShipping_own env ht hp _ ins, m, ?_, ?_, ?_⟩
  · show specTotal t p (parseFloat (JSNum.fin w₂)) (insuranceRequested ins) = JSNum.inf false ∨
      ∃ T₂ : ℚ, specTotal t p (parseFloat (JSNum.fin w₂)) (insuranceRequested ins) =
        JSNum.fin T₂
    rcases hT : specTotal t p (parseFloat (JSNum.fin w₂)) (insuranceRequested ins) with
      x | _ | s
    · exact Or.inr ⟨x, rfl⟩
    · rw [hT] at n2
      simp [JSNum.le] at n2
    · rw [hT] at n2
      cases s
      · exact Or.inl rfl
      · simp [JSNum.le] at n2
  · intro hb
    obtain ⟨W, s, i, T, eW, W0, es, ei, eT, s0, i0, sT⟩ :=
      costs_finite ht hp w₂ 1000 (by norm_num) (le_trans h0 h) hb (insuranceRequested ins)
    refine ⟨T, ?_⟩
    show specTotal t p (parseFloat (JSNum.fin w₂)) (insuranceRequested ins) = JSNum.fin T
    rw [eW, eT]
  · intro T₂ hT₂
    have hT₂' : specTotal t p (parseFloat (JSNum.fin w₂)) (insuranceRequested ins) =
        JSNum.fin T₂ := hT₂
    rw [hT₂'] at m
    obtain ⟨T₁, e1, t0, t12⟩ := fin_of_le_fin n1 m
    refine ⟨T₁, fixedValue T₁, fixedValue T₂, e1, t12, ?_, ?_, fixedValue_mono t0 t12⟩
    · show (toFixed2 (specTotal t p (parseFloat (JSNum.fin w₁))
        (insuranceRequested ins))).value = some (fixedValue T₁)
      rw [e1]
      exact toFixed2_value_nonneg t0
    · show (toFixed2 (specTotal t p (parseFloat (JSNum.fin w₂))
        (insuranceRequested ins))).value = some (fixedValue T₂)
      rw [hT₂']
      exact toFixed2_value_nonneg (le_trans t0 t12)

theorem calculateShipping_total_mono_witness :
    (0 : ℚ) ≤ 30 ∧ (30 : ℚ) ≤ 80 ∧
      ∃ c₁ c₂ q₁ q₂,
        computeCosts ⟨JSNum.fin 30, "express", "package", some "on"⟩ = Except.ok c₁ ∧
        computeCosts ⟨JSNum.fin 80, "express", "package", some "on"⟩ = Except.ok c₂ ∧
        calculateShipping ⟨1793828520000, 1793828520123, 1 / 3⟩
          ⟨JSNum.fin 30, "express", "package", some "on"⟩ = Except.ok q₁ ∧
        calculateShipping ⟨1793828520000, 1793828520123, 1 / 3⟩
          ⟨JSNum.fin 80, "express", "package", some "on"⟩ = Except.ok q₂ ∧
        c₁.totalCost.le c₂.totalCost = true ∧
        (c₂.totalCost = JSNum.inf false ∨ ∃ T₂ : ℚ, c₂.totalCost = JSNum.fin T₂) ∧
        ((80 : ℚ) ≤ 2 ^ 1000 → ∃ T₂ : ℚ, c₂.totalCost = JSNum.fin T₂) ∧
        ∀ T₂ : ℚ, c₂.totalCost = JSNum.fin T₂ →
          ∃ T₁ v₁ v₂, c₁.totalCost = JSNum.fin T₁ ∧ T₁ ≤ T₂ ∧
            q₁.totalCost.value = some v₁ ∧ q₂.totalCost.value = some v₂ ∧ v₁ ≤ v₂ :=
  ⟨by norm_num, by norm_num,
    calculateShipping_total_mono ⟨1793828520000, 1793828520123, 1 / 3⟩ express_mem
      package_mem (some "on") 30 80 (by norm_num) (by norm_num)⟩

/-- Two requests on which binary64 and decimal arithmetic part: weight 0.25, overnight,
document gives `totalCost` 27.61 (the total is held just below 27.615), and weight
22.54, overnight, document with insurance gives subtotal 172.5 and `insuranceCost`
5.17 (the insurance is held just below 5.175). -/
theorem calculateShipping_rounding_cases (env : Env) :
    (∃ q, calculateShipping env ⟨JSNum.fin 0.25, "overnight", "document", none⟩ =
        Except.ok q ∧ q.totalCost.render = some "27.61") ∧
      ∃ c q, computeCosts ⟨JSNum.fin 22.54, "overnight", "document", some "on"⟩ =
          Except.ok c ∧
        calculateShipping env ⟨JSNum.fin 22.54, "overnight", "document", some "on"⟩ =
          Except.ok q ∧
        c.subtotal = JSNum.fin 172.5 ∧
        c.insuranceCost = JSNum.fin (5826532017910579 / 1125899906842624) ∧
        q.insuranceCost.render = some "5.17" ∧ q.totalCost.render = some "177.68" := by
  refine ⟨⟨_, calculateShipping_own env overnight_mem document_mem _ _, ?_⟩,
    ⟨_, _, computeCosts_own overnight_mem document_mem _ _,
      calculateShipping_own env overnight_mem document_mem _ _, ?_, ?_, ?_, ?_⟩⟩
  · dsimp only; decide!
  · dsimp only; decide!
  · dsimp only; decide!
  · dsimp only; decide!
  · dsimp only; decide!



/-! ## The tracking number -/

/-- C7: the code at `Math.random() = 0.5` and at `Math.random() = 0`.  The radix-36
string of 0.5 is `"0.i"` and that of 0 is `"0"`, so `substr(2, 4)` yields one character
and none: the tracking numbers have 11 and 10 characters instead of 14.  A clock below
`10^7` milliseconds shortens the digit part in the same way. -/
theorem generateTrackingNumber_short :
    generateTrackingNumber 1793828520123 (1 / 2) = "LC28520123I" ∧
      (generateTrackingNumber 1793828520123 (1 / 2)).length = 11 ∧
      generateTrackingNumber 1793828520123 0 = "LC28520123" ∧
      (generateTrackingNumber 1793828520123 0).length = 10 ∧
      generateTrackingNumber 86400000 (1 / 2) = "LC86400000I" ∧
      generateTrackingNumber 5 (1 / 2) = "LC5I" := by
  refine ⟨?_, ?_, ?_, ?_, ?_, ?_⟩ <;> decide!

/-! ## The delivery date -/

theorem deliveryDate_eq (today : ℤ) (shippingType : String) :
    deliveryDate today shippingType = today + deliveryDays shippingType * msPerDay := by
  unfold deliveryDate
  exact setDate_getDate_add today _

/-- Month ends, a leap day and a year end under `nextDay`, and two delivery dates of the
method that cross them. -/
theorem nextDay_rollover :
    nextDay ⟨2024, 1, 28⟩ = ⟨2024, 1, 29⟩ ∧ nextDay ⟨2024, 1, 29⟩ = ⟨2024, 2, 1⟩ ∧
      nextDay ⟨2025, 1, 28⟩ = ⟨2025, 2, 1⟩ ∧ nextDay ⟨2024, 11, 31⟩ = ⟨2025, 0, 1⟩ ∧
      nextDay ⟨2026, 10, 30⟩ = ⟨2026, 11, 1⟩ ∧
      calendarDate 1735603200000 = ⟨2024, 11, 31⟩ ∧
      calculateDeliveryDate 1735603200000 "express" = "Friday, January 3, 2025" ∧
      calculateDeliveryDate 1709164800000 "overnight" = "Friday, March 1, 2024" ∧
      calculateDeliveryDate 1793828520000 "standard" = "Tuesday, November 10, 2026" := by
  refine ⟨?_, ?_, ?_, ?_, ?_, ?_, ?_, ?_, ?_⟩ <;> decide!

/-- C8. For every reference time, the Date that `calculateDeliveryDate` formats is the
reference moved by exactly 6 days for standard, 3 for express and 1 for overnight; its
calendar date is the reference calendar date advanced that many times by `nextDay`,
which rolls over month and year ends; hence the overnight date is not after the
express date, which is not after the standard date.  The returned string is the
`en-US` long form of that Date. -/
theorem calculateDeliveryDate_advances (today : ℤ) :
    deliveryDate today "standard" = today + 6 * msPerDay ∧
      deliveryDate today "express" = today + 3 * msPerDay ∧
      deliveryDate today "overnight" = today + 1 * msPerDay ∧
      Day (deliveryDate today "standard") = Day today + 6 ∧
      Day (deliveryDate today "express") = Day today + 3 ∧
      Day (deliveryDate today "overnight") = Day today + 1 ∧
      calendarDate (deliveryDate today "standard") = nextDay^[6] (calendarDate today) ∧
      calendarDate (deliveryDate today "express") = nextDay^[3] (calendarDate today) ∧
      calendarDate (deliveryDate today "overnight") = nextDay^[1] (calendarDate today) ∧
      deliveryDate today "overnight" ≤ deliveryDate today "express" ∧
      deliveryDate today "express" ≤ deliveryDate today "standard" ∧
      Day (deliveryDate today "overnight") ≤ Day (deliveryDate today "express") ∧
      Day (deliveryDate today "express") ≤ Day (deliveryDate today "standard") ∧
      ∀ tier, calculateDeliveryDate today tier =
        toLocaleDateString (deliveryDate today tier) := by
  have h6 : deliveryDate today "standard" = today + 6 * msPerDay := deliveryDate_eq today _
  have h3 : deliveryDate today "express" = today + 3 * msPerDay := deliveryDate_eq today _
  have h1 : deliveryDate today "overnight" = today + 1 * msPerDay := deliveryDate_eq today _
  have c6 := calendarDate_add_days today 6
  have c3 := calendarDate_add_days today 3
  have c1 := calendarDate_add_days today 1
  have d6 := Day_add_days today 6
  have d3 := Day_add_days today 3
  have d1 := Day_add_days today 1
  rw [h6, h3, h1]
  refine ⟨rfl, rfl, rfl, d6, d3, d1, by exact_mod_cast c6, by exact_mod_cast c3,
    by exact_mod_cast c1, ?_, ?_, ?_, ?_, fun _ => rfl⟩
  · unfold msPerDay; omega
  · unfold msPerDay; omega
  · omega
  · omega

end ShippingCalculator
